/-
Verification of the connection/client resolution and caching layer of the
blue-flame VS Code extension (src/firebase/adminAppFactory.ts).

The TypeScript module keeps three module-level `Map`s — `appCache`
(connection id ↦ firebase-admin App), `firestoreCache`
("id:databaseId" ↦ Firestore client) and `oauthClientCache`
(connection id ↦ OAuth2Client) — plus a mutable `_authProvider` slot, and
exposes `setAuthProvider`, `isOAuthConnection`, `getOAuthClient` (private),
`getAccessToken`, `getFirestoreClient`, `getApp`, `disposeConnection` and
`disposeAll`.

This file embeds that module shallowly: the mutable module state becomes an
explicit `RegistryState` threaded through the operations, the outside world
(file system, secret store, token endpoint, SDK shutdown hooks, build-time
OAuth constants) becomes an explicit `Env`, `async` functions that can throw
return `Except Err`, and every externally visible action (file probe, file
read, secret-store read, token-endpoint request, client construction,
shutdown hook) is recorded in a trace of `Effect`s.  Client objects are
modelled as handles carrying the construction parameters; a global
`nextHandle` counter gives every constructed client a distinct identity, so
JavaScript reference equality becomes equality of handles.
-/
import Mathlib

namespace BlueFlame

/-- `authMode` of a `Connection` (src/storage/types.ts): the closed union
`"adc" | "serviceAccountPath" | "googleOAuth"`. -/
inductive AuthMode
  | adc
  | serviceAccountPath
  | googleOAuth
  deriving DecidableEq, Repr

/-- `Connection` record (src/storage/types.ts).  `serviceAccountPath?` is an
optional field, so it is an `Option String` here; the TypeScript truthiness
test on it is `sapTruthy` below. -/
structure Connection where
  id : String
  name : String
  projectId : String
  databaseId : String
  authMode : AuthMode
  serviceAccountPath : Option String
  deriving DecidableEq, Repr

/-- Truthiness of the optional `connection.serviceAccountPath` string:
`undefined` and `""` are falsy, every other string is truthy. -/
def sapTruthy : Option String → Bool
  | none => false
  | some s => s ≠ ""

/-- Truthiness of the `string | undefined` returned by
`GoogleAuthProvider.getRefreshToken`: `undefined` and `""` are falsy. -/
def tokenTruthy : Option String → Bool
  | none => false
  | some s => s ≠ ""

/-- The credential object passed to `admin.initializeApp`
(`admin.credential.cert(serviceAccount)` or
`admin.credential.applicationDefault()`).  The parsed service-account JSON is
kept abstract as the raw file text. -/
inductive Credential
  | cert (serviceAccount : String)
  | applicationDefault
  deriving DecidableEq, Repr

/-- A firebase-admin `App`.  `handle` is the identity of the object
(reference equality); `credential`, `projectId` and `name` are the arguments
of the `admin.initializeApp(
  \x7b credential, projectId \x7d, connection.id)` call that built it.
`mode` is a ghost field recording the `authMode` of the connection whose
`getApp` call constructed the app; it exists only so that invariants about
which connections ever reach the app cache can be stated. -/
structure App where
  handle : Nat
  credential : Credential
  projectId : String
  name : String
  mode : AuthMode
  deriving DecidableEq, Repr

/-- A `@google-cloud/firestore` `Firestore` client.  `handle` is the object
identity; `projectId`/`databaseId` are its construction parameters;
`viaApp = some h` when the client was derived from the admin app with handle
`h` (`getFirestore(app[, databaseId])`), `none` when it was constructed
directly on the OAuth path. -/
structure FirestoreClient where
  handle : Nat
  projectId : String
  databaseId : String
  viaApp : Option Nat
  deriving DecidableEq, Repr

/-- A `google-auth-library` `OAuth2Client` with credentials
`\x7b refresh_token \x7d` set.  `handle` is the object identity. -/
structure OAuth2Client where
  handle : Nat
  refreshToken : String
  deriving DecidableEq, Repr

/-- Errors thrown by the module.  Each constructor corresponds to one
`throw new Error(...)` site (message given by `Err.message`), except
`appDeleteError`/`terminateError`, which stand for the opaque rejections of
the SDK shutdown hooks `app.delete()` / `firestore.terminate()`. -/
inductive Err
  | unsupportedMode
  | serviceAccountFileNotFound (resolvedPath : String)
  | oauthProviderNotInitialized
  | notSignedIn
  | clientIdNotConfigured
  | clientSecretNotConfigured
  | notOAuthConnection
  | accessTokenNull
  | sdkError (msg : String)
  | appDeleteError (connectionId : String)
  | terminateError (cacheKey : String)
  deriving DecidableEq, Repr

/-- The literal `new Error(...)` message of each throw site in the source. -/
def Err.message : Err → String
  | .unsupportedMode =>
      "Admin SDK App is not available for OAuth connections. Use getFirestoreClient() or getAccessToken() instead."
  | .serviceAccountFileNotFound p => "Service account file not found: " ++ p
  | .oauthProviderNotInitialized => "Google OAuth provider not initialized"
  | .notSignedIn => "No Google OAuth refresh token found. Please sign in again."
  | .clientIdNotConfigured => "OAuth Client ID is not configured. Check build configuration."
  | .clientSecretNotConfigured => "OAuth Client Secret is not configured. Check build configuration."
  | .notOAuthConnection => "getAccessToken is only for OAuth connections"
  | .accessTokenNull => "Failed to get access token"
  | .sdkError m => m
  | .appDeleteError id => "app.delete() failed for " ++ id
  | .terminateError k => "firestore.terminate() failed for " ++ k

/-- Externally visible actions of the module, recorded as a trace. -/
inductive Effect
  | fileExistsCheck (resolvedPath : String)
  | fileRead (resolvedPath : String)
  | secretStoreRead
  | tokenEndpointRequest
  | constructOAuthClient (handle : Nat)
  | constructFirestore (handle : Nat)
  | constructApp (handle : Nat)
  | appDelete (connectionId : String)
  | firestoreTerminate (cacheKey : String)
  deriving DecidableEq, Repr

/-! ## JavaScript `Map` and `String` primitives

The three caches are JavaScript `Map<string, _>` objects.  A `Map` is an
insertion-ordered association list with unique keys: `get` returns the value
of the key, `set` updates in place if the key exists and appends otherwise,
`delete` removes the key.  `String.prototype.startsWith(p)` tests whether the
code-unit sequence of `p` is a prefix of the receiver's. -/

/-- JavaScript `map.get(k)`. -/
def mapGet {α : Type} (m : List (String × α)) (k : String) : Option α :=
  match m with
  | [] => none
  | (k', v) :: rest => if k' = k then some v else mapGet rest k

/-- JavaScript `map.set(k, v)`: update in place when present, append when
absent. -/
def mapSet {α : Type} (m : List (String × α)) (k : String) (v : α) :
    List (String × α) :=
  match m with
  | [] => [(k, v)]
  | (k', v') :: rest =>
      if k' = k then (k', v) :: rest else (k', v') :: mapSet rest k v

/-- JavaScript `map.delete(k)`: remove the entry with key `k` (written as a
removal of every such entry, which agrees with `Map.delete` since `Map` keys
are unique). -/
def mapDelete {α : Type} (m : List (String × α)) (k : String) :
    List (String × α) :=
  match m with
  | [] => []
  | (k', v) :: rest =>
      if k' = k then mapDelete rest k else (k', v) :: mapDelete rest k

/-- Character-list prefix test, the semantics of
`String.prototype.startsWith`. -/
def charsPrefix : List Char → List Char → Bool
  | [], _ => true
  | _ :: _, [] => false
  | a :: as, b :: bs => a = b && charsPrefix as bs

/-- JavaScript `s.startsWith(pre)`. -/
def jsStartsWith (s pre : String) : Bool :=
  charsPrefix pre.data s.data

/-! ## Environment and state -/

/-- Everything outside the module that its behaviour depends on, made
explicit: the build-time OAuth constants (`googleOAuthConstants.ts`, injected
by esbuild), the file system, the secret store behind
`GoogleAuthProvider.getRefreshToken`, the token endpoint behind
`client.getAccessToken()`, and whether each SDK shutdown hook
(`app.delete()`, `firestore.terminate()`, keyed by the handle of the object)
rejects. -/
structure Env where
  googleClientId : String
  googleClientSecret : String
  resolvePath : String → String
  fileExists : String → Bool
  fileContents : String → String
  refreshToken : Option String
  accessTokenResult : Except Err (Option String)
  appDeleteFails : Nat → Bool
  terminateFails : Nat → Bool

/-- The module-level mutable state: the three caches, the `_authProvider`
slot (only its presence matters), and the ghost counter handing out fresh
object identities. -/
structure RegistryState where
  appCache : List (String × App)
  firestoreCache : List (String × FirestoreClient)
  oauthClientCache : List (String × OAuth2Client)
  authProvider : Bool
  nextHandle : Nat
  deriving DecidableEq, Repr

/-- Module load: all three caches empty, `_authProvider` unset. -/
def initialState : RegistryState :=
  { appCache := [], firestoreCache := [], oauthClientCache := [],
    authProvider := false, nextHandle := 0 }

/-- Result of one operation: the returned-or-thrown value, the state of the
module afterwards, and the trace of external actions performed. -/
def Outcome (α : Type) : Type := Except Err α × RegistryState × List Effect

/-! ## The operations (src/firebase/adminAppFactory.ts) -/

/-- `setAuthProvider(provider)`. -/
def setAuthProvider (s : RegistryState) : RegistryState :=
  { s with authProvider := true }

/-- `isOAuthConnection(connection)`. -/
def isOAuthConnection (c : Connection) : Bool :=
  c.authMode = AuthMode.googleOAuth

/-- `getOAuthClient(connection)` (lines 26–56): cache lookup by
`connection.id`; on a miss, require `_authProvider`, await
`getRefreshToken()` (a secret-store read — see
`GoogleAuthProvider.getRefreshToken`, which only reads
`context.secrets`), validate the build-time client id/secret
(`!v || v.length < 10`, which is `v.length < 10` since `!v` only for the
empty string), construct the client, cache it, return it. -/
def getOAuthClient (env : Env) (c : Connection) (s : RegistryState) :
    Outcome OAuth2Client :=
  match mapGet s.oauthClientCache c.id with
  | some cached => (.ok cached, s, [])
  | none =>
    if s.authProvider = false then
      (.error .oauthProviderNotInitialized, s, [])
    else
      match env.refreshToken with
      | none => (.error .notSignedIn, s, [.secretStoreRead])
      | some tok =>
        if tok = "" then
          (.error .notSignedIn, s, [.secretStoreRead])
        else if env.googleClientId.length < 10 then
          (.error .clientIdNotConfigured, s, [.secretStoreRead])
        else if env.googleClientSecret.length < 10 then
          (.error .clientSecretNotConfigured, s, [.secretStoreRead])
        else
          let client : OAuth2Client := { handle := s.nextHandle, refreshToken := tok }
          (.ok client,
           { s with
               oauthClientCache := mapSet s.oauthClientCache c.id client,
               nextHandle := s.nextHandle + 1 },
           [.secretStoreRead, .constructOAuthClient s.nextHandle])

/-- `getAccessToken(connection)` (lines 58–77): reject non-OAuth
connections, resolve the OAuth client, then `client.getAccessToken()` — a
token-endpoint request whose outcome `env.accessTokenResult` may be a
rejection (rethrown), a null token (`Failed to get access token`), or a
token. -/
def getAccessToken (env : Env) (c : Connection) (s : RegistryState) :
    Outcome String :=
  if isOAuthConnection c = false then
    (.error .notOAuthConnection, s, [])
  else
    match getOAuthClient env c s with
    | (.error e, s', eff) => (.error e, s', eff)
    | (.ok _, s', eff) =>
      match env.accessTokenResult with
      | .error e => (.error e, s', eff ++ [.tokenEndpointRequest])
      | .ok none => (.error .accessTokenNull, s', eff ++ [.tokenEndpointRequest])
      | .ok (some tok) =>
        if tok = "" then
          (.error .accessTokenNull, s', eff ++ [.tokenEndpointRequest])
        else
          (.ok tok, s', eff ++ [.tokenEndpointRequest])

/-- `getApp(connection)` (lines 122–161): reject OAuth connections before
anything else; cache lookup by `connection.id`; on a miss resolve a
credential — service-account file when `authMode === "serviceAccountPath"`
and the path is truthy (existence probe, then read and parse), otherwise
Application Default Credentials — then `admin.initializeApp(...)`, cache,
return.  (`JSON.parse`/`admin.credential.cert` are kept abstract: the parsed
key is the raw file text.  The admin SDK's own named-app registry is not
modelled; in every reachable state it mirrors `appCache`.) -/
def getApp (env : Env) (c : Connection) (s : RegistryState) : Outcome App :=
  if c.authMode = AuthMode.googleOAuth then
    (.error .unsupportedMode, s, [])
  else
    match mapGet s.appCache c.id with
    | some cached => (.ok cached, s, [])
    | none =>
      let credAndEffects : Except Err Credential × List Effect :=
        if c.authMode = AuthMode.serviceAccountPath ∧ sapTruthy c.serviceAccountPath then
          let resolvedPath := env.resolvePath (c.serviceAccountPath.getD "")
          if env.fileExists resolvedPath = false then
            (.error (.serviceAccountFileNotFound resolvedPath),
             [.fileExistsCheck resolvedPath])
          else
            let raw := env.fileContents resolvedPath
            (.ok (.cert raw), [.fileExistsCheck resolvedPath, .fileRead resolvedPath])
        else
          (.ok .applicationDefault, [])
      match credAndEffects with
      | (.error e, eff) => (.error e, s, eff)
      | (.ok cred, eff) =>
        let app : App :=
          { handle := s.nextHandle, credential := cred,
            projectId := c.projectId, name := c.id, mode := c.authMode }
        (.ok app,
         { s with
             appCache := mapSet s.appCache c.id app,
             nextHandle := s.nextHandle + 1 },
         eff ++ [.constructApp s.nextHandle])

/-- The cache key of `getFirestoreClient`:
``` `$\x7bconnection.id\x7d:$\x7bconnection.databaseId\x7d` ```. -/
def fsCacheKey (c : Connection) : String :=
  c.id ++ ":" ++ c.databaseId

/-- `getFirestoreClient(connection)` (lines 79–120): cache lookup by
`fsCacheKey`; on a miss, OAuth connections build a `Firestore` directly over
the OAuth client (no admin app), other connections go through `getApp` and
derive the client with `getFirestore(app[, databaseId])`; cache, return. -/
def getFirestoreClient (env : Env) (c : Connection) (s : RegistryState) :
    Outcome FirestoreClient :=
  match mapGet s.firestoreCache (fsCacheKey c) with
  | some cached => (.ok cached, s, [])
  | none =>
    if c.authMode = AuthMode.googleOAuth then
      match getOAuthClient env c s with
      | (.error e, s', eff) => (.error e, s', eff)
      | (.ok _, s', eff) =>
        let databaseId :=
          if c.databaseId ≠ "" ∧ c.databaseId ≠ "(default)" then c.databaseId
          else "(default)"
        let fsClient : FirestoreClient :=
          { handle := s'.nextHandle, projectId := c.projectId,
            databaseId := databaseId, viaApp := none }
        (.ok fsClient,
         { s' with
             firestoreCache := mapSet s'.firestoreCache (fsCacheKey c) fsClient,
             nextHandle := s'.nextHandle + 1 },
         eff ++ [.constructFirestore s'.nextHandle])
    else
      match getApp env c s with
      | (.error e, s', eff) => (.error e, s', eff)
      | (.ok app, s', eff) =>
        let databaseId :=
          if c.databaseId ≠ "" ∧ c.databaseId ≠ "(default)" then c.databaseId
          else "(default)"
        let fsClient : FirestoreClient :=
          { handle := s'.nextHandle, projectId := c.projectId,
            databaseId := databaseId, viaApp := some app.handle }
        (.ok fsClient,
         { s' with
             firestoreCache := mapSet s'.firestoreCache (fsCacheKey c) fsClient,
             nextHandle := s'.nextHandle + 1 },
         eff ++ [.constructFirestore s'.nextHandle])

/-- The `for (const key of firestoreCache.keys())` loop of
`disposeConnection` (lines 172–181), over the snapshot `keys` of the map's
key list (only visited keys are deleted, so iterating the snapshot agrees
with the live `Map` iterator).  For each key starting with
``` `$\x7bconnectionId\x7d:` ``` the client is terminated — a rejection of
`terminate()` aborts the whole (un-caught) `async` function with the
entry still in the map — and then deleted. -/
def disposeFsLoop (env : Env) (connectionId : String) :
    List String → RegistryState → List Effect → Outcome Unit
  | [], s, acc => (.ok (), s, acc)
  | k :: ks, s, acc =>
    if jsStartsWith k (connectionId ++ ":") then
      match mapGet s.firestoreCache k with
      | some f =>
        if env.terminateFails f.handle then
          (.error (.terminateError k), s, acc ++ [.firestoreTerminate k])
        else
          disposeFsLoop env connectionId ks
            { s with firestoreCache := mapDelete s.firestoreCache k }
            (acc ++ [.firestoreTerminate k])
      | none =>
        disposeFsLoop env connectionId ks
          { s with firestoreCache := mapDelete s.firestoreCache k } acc
    else
      disposeFsLoop env connectionId ks s acc

/-- The part of `disposeConnection` after the app-cache step: the Firestore
loop over the snapshot of the cache's keys, then
`oauthClientCache.delete(connectionId)`.  A `terminate()` rejection aborts
before the OAuth delete. -/
def disposeConnectionRest (env : Env) (connectionId : String)
    (s : RegistryState) (acc : List Effect) : Outcome Unit :=
  match disposeFsLoop env connectionId (s.firestoreCache.map Prod.fst) s acc with
  | (.error e, s₂, eff₂) => (.error e, s₂, eff₂)
  | (.ok _, s₂, eff₂) =>
    (.ok (),
     { s₂ with oauthClientCache := mapDelete s₂.oauthClientCache connectionId },
     eff₂)

/-- `disposeConnection(connectionId)` (lines 163–184): `await app.delete()`
then remove the app entry (a rejection of `delete()` aborts with the entry
still cached); terminate-and-remove every Firestore entry whose key starts
with ``` `$\x7bconnectionId\x7d:` ```; `oauthClientCache.delete`. -/
def disposeConnection (env : Env) (connectionId : String) (s : RegistryState) :
    Outcome Unit :=
  match mapGet s.appCache connectionId with
  | some app =>
    if env.appDeleteFails app.handle then
      (.error (.appDeleteError connectionId), s, [.appDelete connectionId])
    else
      disposeConnectionRest env connectionId
        { s with appCache := mapDelete s.appCache connectionId }
        [.appDelete connectionId]
  | none => disposeConnectionRest env connectionId s []

/-- `disposeAll()` (lines 186–202).  `Array.from(cache.entries()).map(async
([k, v]) => \x7b await hook(); cache.delete(k); \x7d)` starts every shutdown
hook before any deletion runs; each closure then deletes its own entry iff
its hook resolved.  `Promise.all` rejects as soon as one closure rejects
(here determinised to the first rejecting entry in array order — app entries
before Firestore entries), in which case the `oauthClientCache.clear()`
after the `await` never runs; when every hook resolves all entries are
deleted and the OAuth cache is cleared. -/
def disposeAll (env : Env) (s : RegistryState) : Outcome Unit :=
  let effs : List Effect :=
    s.appCache.map (fun p => .appDelete p.1)
      ++ s.firestoreCache.map (fun p => .firestoreTerminate p.1)
  let appCache' := s.appCache.filter (fun p => env.appDeleteFails p.2.handle)
  let firestoreCache' :=
    s.firestoreCache.filter (fun p => env.terminateFails p.2.handle)
  match s.appCache.find? (fun p => env.appDeleteFails p.2.handle) with
  | some p =>
    (.error (.appDeleteError p.1),
     { s with appCache := appCache', firestoreCache := firestoreCache' }, effs)
  | none =>
    match s.firestoreCache.find? (fun p => env.terminateFails p.2.handle) with
    | some p =>
      (.error (.terminateError p.1),
       { s with appCache := appCache', firestoreCache := firestoreCache' }, effs)
    | none =>
      (.ok (),
       { s with appCache := [], firestoreCache := [], oauthClientCache := [] },
       effs)

/-! ## Reachable states

A state is reachable when some sequence of calls into the module's public
surface produces it from the module-load state. -/

/-- One call into the module, with the connection/environment it was made
with. -/
inductive Op
  | opSetAuthProvider
  | opGetOAuthClient (env : Env) (c : Connection)
  | opGetAccessToken (env : Env) (c : Connection)
  | opGetFirestoreClient (env : Env) (c : Connection)
  | opGetApp (env : Env) (c : Connection)
  | opDisposeConnection (env : Env) (connectionId : String)
  | opDisposeAll (env : Env)

/-- The state left behind by one call. -/
def applyOp (op : Op) (s : RegistryState) : RegistryState :=
  match op with
  | .opSetAuthProvider => setAuthProvider s
  | .opGetOAuthClient env c => (getOAuthClient env c s).2.1
  | .opGetAccessToken env c => (getAccessToken env c s).2.1
  | .opGetFirestoreClient env c => (getFirestoreClient env c s).2.1
  | .opGetApp env c => (getApp env c s).2.1
  | .opDisposeConnection env cid => (disposeConnection env cid s).2.1
  | .opDisposeAll env => (disposeAll env s).2.1

/-- Whether the call is one of the two disposal operations. -/
def Op.isDisposal : Op → Bool
  | .opDisposeConnection _ _ => true
  | .opDisposeAll _ => true
  | _ => false

/-- The state after a sequence of calls. -/
def applyOps (ops : List Op) (s : RegistryState) : RegistryState :=
  ops.foldl (fun s op => applyOp op s) s

/-- A module state reachable from module load by some call sequence. -/
def Reachable (s : RegistryState) : Prop :=
  ∃ ops : List Op, applyOps ops initialState = s

/-! ## Interleaving semantics of `getOAuthClient`

`getOAuthClient` has exactly one asynchronous suspension point, the
`await _authProvider.getRefreshToken()` on line 37.  To reason about two
resolutions in flight concurrently (single-threaded cooperative scheduling,
as in Node), the function body is cut at that point into a small-step
machine: `start` is the entry (cache lookup, provider check, then suspend),
`awaitingToken` is the continuation after the `await` (token check,
constant checks, construction, cache write), `done` is the returned or
thrown result.  `runToCompletion_eq_getOAuthClient` below checks that
running the machine without interleaving is exactly the sequential
function. -/

/-- Decidable equality of `Except` results (needed to evaluate concrete
outcomes). -/
instance exceptDecEq {ε α : Type} [DecidableEq ε] [DecidableEq α] :
    DecidableEq (Except ε α) := fun a b =>
  match a, b with
  | .error x, .error y =>
    if h : x = y then isTrue (congrArg Except.error h)
    else isFalse (fun he => h (Except.error.inj he))
  | .ok x, .ok y =>
    if h : x = y then isTrue (congrArg Except.ok h)
    else isFalse (fun he => h (Except.ok.inj he))
  | .error _, .ok _ => isFalse (fun he => Except.noConfusion he)
  | .ok _, .error _ => isFalse (fun he => Except.noConfusion he)

/-- Program counter of one in-flight `getOAuthClient` call. -/
inductive OAuthCallerPC
  | start
  | awaitingToken
  | done (r : Except Err OAuth2Client)
  deriving DecidableEq, Repr

/-- One scheduler step of an in-flight `getOAuthClient` call. -/
def oauthStep (env : Env) (c : Connection) (pc : OAuthCallerPC)
    (s : RegistryState) : OAuthCallerPC × RegistryState × List Effect :=
  match pc with
  | .done r => (.done r, s, [])
  | .start =>
    match mapGet s.oauthClientCache c.id with
    | some cached => (.done (.ok cached), s, [])
    | none =>
      if s.authProvider = false then
        (.done (.error .oauthProviderNotInitialized), s, [])
      else
        (.awaitingToken, s, [])
  | .awaitingToken =>
    match env.refreshToken with
    | none => (.done (.error .notSignedIn), s, [.secretStoreRead])
    | some tok =>
      if tok = "" then
        (.done (.error .notSignedIn), s, [.secretStoreRead])
      else if env.googleClientId.length < 10 then
        (.done (.error .clientIdNotConfigured), s, [.secretStoreRead])
      else if env.googleClientSecret.length < 10 then
        (.done (.error .clientSecretNotConfigured), s, [.secretStoreRead])
      else
        let client : OAuth2Client := { handle := s.nextHandle, refreshToken := tok }
        (.done (.ok client),
         { s with
             oauthClientCache := mapSet s.oauthClientCache c.id client,
             nextHandle := s.nextHandle + 1 },
         [.secretStoreRead, .constructOAuthClient s.nextHandle])

/-- Run one caller to completion with no interleaving (at most two steps are
ever needed; the fallback arm is unreachable). -/
def runToCompletion (env : Env) (c : Connection) (pc : OAuthCallerPC)
    (s : RegistryState) : Outcome OAuth2Client :=
  match oauthStep env c pc s with
  | (.done r, s₁, e₁) => (r, s₁, e₁)
  | (pc₁, s₁, e₁) =>
    match oauthStep env c pc₁ s₁ with
    | (.done r, s₂, e₂) => (r, s₂, e₁ ++ e₂)
    | (_, s₂, e₂) => (.error .oauthProviderNotInitialized, s₂, e₁ ++ e₂)

/-- Two in-flight resolutions of the same connection sharing the module
state, plus the combined trace. -/
structure TwoCallers where
  pcA : OAuthCallerPC
  pcB : OAuthCallerPC
  reg : RegistryState
  trace : List Effect
  deriving DecidableEq, Repr

/-- Both callers at the entry of `getOAuthClient`, trace empty. -/
def twoCallersStart (s : RegistryState) : TwoCallers :=
  { pcA := .start, pcB := .start, reg := s, trace := [] }

/-- Advance one of the two callers (`false` = A, `true` = B). -/
def stepCaller (env : Env) (c : Connection) (m : TwoCallers) (which : Bool) :
    TwoCallers :=
  if which then
    match oauthStep env c m.pcB m.reg with
    | (pc', s', e) => { m with pcB := pc', reg := s', trace := m.trace ++ e }
  else
    match oauthStep env c m.pcA m.reg with
    | (pc', s', e) => { m with pcA := pc', reg := s', trace := m.trace ++ e }

/-- Run the two callers under a schedule. -/
def runSchedule (env : Env) (c : Connection) (sched : List Bool)
    (m : TwoCallers) : TwoCallers :=
  sched.foldl (stepCaller env c) m

/-- Number of `OAuth2Client` constructions recorded in a trace. -/
def oauthConstructionCount (tr : List Effect) : Nat :=
  (tr.filter (fun e =>
    match e with
    | .constructOAuthClient _ => true
    | _ => false)).length

/-! ## Invariant predicates and concrete fixtures -/

/-- `connectionId` is present in none of the three caches: no app entry, no
Firestore entry the `disposeConnection` prefix scan would attribute to it,
no OAuth-client entry. -/
def idAbsent (connectionId : String) (s : RegistryState) : Prop :=
  mapGet s.appCache connectionId = none ∧
  (∀ k ∈ s.firestoreCache.map Prod.fst,
    jsStartsWith k (connectionId ++ ":") = false) ∧
  mapGet s.oauthClientCache connectionId = none

/-- The environment/state conditions under which the construction path of
`getFirestoreClient` for `c` succeeds (used to express "a connection whose
construction can succeed"): on the OAuth path either an OAuth client is
already cached or the provider is set, a refresh token is stored and the
build-time constants are configured; on the admin path either the app is
already cached or the service-account file (when one is demanded) exists. -/
def canConstructFs (env : Env) (c : Connection) (s : RegistryState) : Prop :=
  if c.authMode = AuthMode.googleOAuth then
    mapGet s.oauthClientCache c.id ≠ none ∨
      (s.authProvider = true ∧ tokenTruthy env.refreshToken = true ∧
       10 ≤ env.googleClientId.length ∧ 10 ≤ env.googleClientSecret.length)
  else
    mapGet s.appCache c.id ≠ none ∨
      ((c.authMode = AuthMode.serviceAccountPath ∧
          sapTruthy c.serviceAccountPath = true) →
        env.fileExists (env.resolvePath (c.serviceAccountPath.getD "")) = true)

/-- Ghost invariant: every cached client handle was handed out by the
`nextHandle` counter, so it is below the counter's current value. -/
def handlesBound (s : RegistryState) : Prop :=
  (∀ p ∈ s.appCache, p.2.handle < s.nextHandle) ∧
  (∀ p ∈ s.firestoreCache, p.2.handle < s.nextHandle) ∧
  (∀ p ∈ s.oauthClientCache, p.2.handle < s.nextHandle)

/-- Every cached admin app was constructed for a non-OAuth connection. -/
def appCacheModesOk (s : RegistryState) : Prop :=
  ∀ p ∈ s.appCache, p.2.mode ≠ AuthMode.googleOAuth

/-- A benign environment: configured OAuth constants, a stored refresh
token, no files on disk, a working token endpoint, shutdown hooks that
resolve. -/
def envBase : Env :=
  { googleClientId := "client-id-0123456789"
    googleClientSecret := "client-secret-0123456789"
    resolvePath := fun p => p
    fileExists := fun _ => false
    fileContents := fun _ => ""
    refreshToken := some "refresh-token-1"
    accessTokenResult := .ok (some "access-token-1")
    appDeleteFails := fun _ => false
    terminateFails := fun _ => false }

/-- `envBase` with no refresh token in the secret store. -/
def envNoToken : Env := { envBase with refreshToken := none }

/-- `envBase`, but the shutdown hook of the app with handle 0 rejects. -/
def envAppDeleteFails : Env :=
  { envBase with appDeleteFails := fun h => decide (h = 0) }

/-- `envBase`, but the `terminate()` hook of the Firestore client with
handle 1 rejects (every `app.delete()` still resolves). -/
def envTerminateFails : Env :=
  { envBase with terminateFails := fun h => decide (h = 1) }

/-- An ADC connection. -/
def cAdc : Connection :=
  { id := "conn-adc", name := "adc connection", projectId := "proj-a",
    databaseId := "(default)", authMode := .adc, serviceAccountPath := none }

/-- A Google-OAuth connection. -/
def cOAuthConn : Connection :=
  { id := "conn-oauth", name := "oauth connection", projectId := "proj-b",
    databaseId := "(default)", authMode := .googleOAuth,
    serviceAccountPath := none }

/-- A service-account connection whose key file does not exist in
`envBase`. -/
def cSap : Connection :=
  { id := "conn-sap", name := "sap connection", projectId := "proj-c",
    databaseId := "db-1", authMode := .serviceAccountPath,
    serviceAccountPath := some "/missing/key.json" }

/-- A service-account connection with an empty `serviceAccountPath`. -/
def cSapEmpty : Connection :=
  { id := "conn-sap-empty", name := "sap connection without path",
    projectId := "proj-d", databaseId := "(default)",
    authMode := .serviceAccountPath, serviceAccountPath := some "" }

/-- Module state right after activation (`setAuthProvider` has run). -/
def sReady : RegistryState := setAuthProvider initialState

/-- A reachable state with one admin app (handle 0), one Firestore client
(handle 1) and one OAuth client (handle 2) cached. -/
def sC1 : RegistryState :=
  applyOps
    [Op.opSetAuthProvider, Op.opGetFirestoreClient envBase cAdc,
     Op.opGetOAuthClient envBase cOAuthConn] initialState

/-- Validation of the cut: running the machine sequentially from `start` is
exactly the sequential `getOAuthClient`. -/
theorem runToCompletion_eq_getOAuthClient (env : Env) (c : Connection)
    (s : RegistryState) :
    runToCompletion env c .start s = getOAuthClient env c s := by
  unfold runToCompletion getOAuthClient oauthStep
  cases hg : mapGet s.oauthClientCache c.id <;>
    cases hb : s.authProvider <;>
    cases ht : env.refreshToken <;>
    simp only [hg, hb, ht] <;>
    split_ifs <;>
    simp_all

/-! ## Association-list lemmas -/

theorem mapGet_mapSet_self {α : Type} (m : List (String × α)) (k : String)
    (v : α) : mapGet (mapSet m k v) k = some v := by
  induction m with
  | nil => simp [mapSet, mapGet]
  | cons p rest ih =>
    obtain ⟨pk, pv⟩ := p
    by_cases h : pk = k
    · simp [mapSet, mapGet, h]
    · simpa [mapSet, mapGet, h] using ih

theorem mapGet_mapSet_ne {α : Type} (m : List (String × α)) (k k' : String)
    (v : α) (h : k' ≠ k) : mapGet (mapSet m k v) k' = mapGet m k' := by
  have hk : ¬(k = k') := fun e => h e.symm
  induction m with
  | nil => simp [mapSet, mapGet, hk]
  | cons p rest ih =>
    obtain ⟨pk, pv⟩ := p
    by_cases hp : pk = k
    · subst hp
      simp [mapSet, mapGet, hk]
    · by_cases hp' : pk = k'
      · simp [mapSet, mapGet, hp, hp', hk, h]
      · simpa [mapSet, mapGet, hp, hp'] using ih

theorem mapGet_some_mem {α : Type} {m : List (String × α)} {k : String}
    {v : α} (h : mapGet m k = some v) : (k, v) ∈ m := by
  induction m with
  | nil => simp [mapGet] at h
  | cons p rest ih =>
    obtain ⟨pk, pv⟩ := p
    by_cases hp : pk = k
    · rw [mapGet, if_pos hp] at h
      cases h
      subst hp
      exact List.mem_cons_self _ _
    · rw [mapGet, if_neg hp] at h
      exact List.mem_cons_of_mem _ (ih h)

theorem mem_mapSet {α : Type} {m : List (String × α)} {k : String} {v : α}
    {p : String × α} (h : p ∈ mapSet m k v) : p ∈ m ∨ p = (k, v) := by
  induction m with
  | nil =>
    simp only [mapSet, List.mem_singleton] at h
    exact Or.inr h
  | cons q rest ih =>
    obtain ⟨qk, qv⟩ := q
    by_cases hq : qk = k
    · rw [mapSet, if_pos hq] at h
      rcases List.mem_cons.mp h with h | h
      · subst hq
        exact Or.inr h
      · exact Or.inl (List.mem_cons_of_mem _ h)
    · rw [mapSet, if_neg hq] at h
      rcases List.mem_cons.mp h with h | h
      · exact Or.inl (h ▸ List.mem_cons_self _ _)
      · rcases ih h with h | h
        · exact Or.inl (List.mem_cons_of_mem _ h)
        · exact Or.inr h

theorem mapDelete_absent {α : Type} {m : List (String × α)} {k : String}
    (h : mapGet m k = none) : mapDelete m k = m := by
  induction m with
  | nil => rfl
  | cons p rest ih =>
    obtain ⟨pk, pv⟩ := p
    by_cases hp : pk = k
    · rw [mapGet, if_pos hp] at h
      cases h
    · rw [mapGet, if_neg hp] at h
      rw [mapDelete, if_neg hp, ih h]

theorem mapGet_mapDelete_self {α : Type} (m : List (String × α)) (k : String) :
    mapGet (mapDelete m k) k = none := by
  induction m with
  | nil => rfl
  | cons p rest ih =>
    obtain ⟨pk, pv⟩ := p
    by_cases hp : pk = k
    · simpa [mapDelete, hp] using ih
    · simpa [mapDelete, hp, mapGet] using ih

theorem mapGet_mapDelete_ne {α : Type} (m : List (String × α)) (k k' : String)
    (h : k' ≠ k) : mapGet (mapDelete m k) k' = mapGet m k' := by
  induction m with
  | nil => rfl
  | cons p rest ih =>
    obtain ⟨pk, pv⟩ := p
    by_cases hp : pk = k
    · subst hp
      have hne : ¬(pk = k') := fun e => h e.symm
      simpa [mapDelete, mapGet, hne] using ih
    · by_cases hp' : pk = k'
      · simp [mapDelete, mapGet, hp, hp', h]
      · simpa [mapDelete, mapGet, hp, hp'] using ih

theorem mem_mapDelete {α : Type} {m : List (String × α)} {k : String}
    {p : String × α} (h : p ∈ mapDelete m k) : p ∈ m := by
  induction m with
  | nil => simp [mapDelete] at h
  | cons q rest ih =>
    obtain ⟨qk, qv⟩ := q
    by_cases hq : qk = k
    · rw [mapDelete, if_pos hq] at h
      exact List.mem_cons_of_mem _ (ih h)
    · rw [mapDelete, if_neg hq] at h
      rcases List.mem_cons.mp h with h | h
      · exact h ▸ List.mem_cons_self _ _
      · exact List.mem_cons_of_mem _ (ih h)

theorem mapGet_none_of_not_memKeys {α : Type} {m : List (String × α)}
    {k : String} (h : k ∉ m.map Prod.fst) : mapGet m k = none := by
  induction m with
  | nil => rfl
  | cons p rest ih =>
    obtain ⟨pk, pv⟩ := p
    simp only [List.map_cons, List.mem_cons] at h
    push_neg at h
    rw [mapGet, if_neg (fun e => h.1 e.symm)]
    exact ih h.2

theorem memKeys_of_mapGet_some {α : Type} {m : List (String × α)}
    {k : String} {v : α} (h : mapGet m k = some v) : k ∈ m.map Prod.fst := by
  have := mapGet_some_mem h
  exact List.mem_map.mpr ⟨(k, v), this, rfl⟩

theorem not_mem_mapDelete_self {α : Type} {m : List (String × α)}
    {k : String} {v : α} : (k, v) ∉ mapDelete m k := by
  induction m with
  | nil => simp [mapDelete]
  | cons p rest ih =>
    obtain ⟨pk, pv⟩ := p
    by_cases hp : pk = k
    · rw [mapDelete, if_pos hp]
      exact ih
    · rw [mapDelete, if_neg hp]
      intro h
      rcases List.mem_cons.mp h with h | h
      · exact hp (congrArg Prod.fst h).symm
      · exact ih h

/-! ## String-prefix lemmas -/

theorem charsPrefix_append (p r : List Char) : charsPrefix p (p ++ r) = true := by
  induction p with
  | nil => rfl
  | cons a as ih => simp [charsPrefix, ih]

/-- A Firestore cache key always starts with its own connection-id prefix:
``` `$\x7bid\x7d:$\x7bdb\x7d` ``` starts with ``` `$\x7bid\x7d:` ```. -/
theorem jsStartsWith_fsCacheKey (c : Connection) :
    jsStartsWith (fsCacheKey c) (c.id ++ ":") = true := by
  unfold jsStartsWith fsCacheKey
  rw [String.data_append (c.id ++ ":") c.databaseId]
  exact charsPrefix_append _ _

/-! ## Per-operation state characterizations -/

/-- `getOAuthClient` leaves the app cache, the Firestore cache and the
provider slot alone, and never decreases the handle counter. -/
theorem getOAuthClient_untouched (env : Env) (c : Connection)
    (s : RegistryState) :
    (getOAuthClient env c s).2.1.appCache = s.appCache ∧
    (getOAuthClient env c s).2.1.firestoreCache = s.firestoreCache ∧
    (getOAuthClient env c s).2.1.authProvider = s.authProvider ∧
    s.nextHandle ≤ (getOAuthClient env c s).2.1.nextHandle := by
  unfold getOAuthClient
  cases hg : mapGet s.oauthClientCache c.id <;>
    cases hb : s.authProvider <;>
    cases ht : env.refreshToken <;>
    simp only [hg, hb, ht] <;>
    (try split_ifs) <;>
    simp_all [Nat.le_succ]

/-- The OAuth-client cache after `getOAuthClient`: untouched, or one fresh
client added under `connection.id`. -/
theorem getOAuthClient_cache_cases (env : Env) (c : Connection)
    (s : RegistryState) :
    ((getOAuthClient env c s).2.1.oauthClientCache = s.oauthClientCache ∧
      (getOAuthClient env c s).2.1.nextHandle = s.nextHandle) ∨
    (∃ client : OAuth2Client, client.handle = s.nextHandle ∧
      (getOAuthClient env c s).2.1.oauthClientCache =
        mapSet s.oauthClientCache c.id client ∧
      (getOAuthClient env c s).2.1.nextHandle = s.nextHandle + 1) := by
  unfold getOAuthClient
  cases hg : mapGet s.oauthClientCache c.id <;>
    cases hb : s.authProvider <;>
    cases ht : env.refreshToken <;>
    simp only [hg, hb, ht] <;>
    (try split_ifs) <;>
    first
      | exact Or.inl ⟨rfl, rfl⟩
      | exact Or.inr ⟨_, rfl, rfl, rfl⟩
      | simp_all

/-- `getApp` leaves the Firestore cache, the OAuth cache and the provider
slot alone, and never decreases the handle counter. -/
theorem getApp_untouched (env : Env) (c : Connection) (s : RegistryState) :
    (getApp env c s).2.1.firestoreCache = s.firestoreCache ∧
    (getApp env c s).2.1.oauthClientCache = s.oauthClientCache ∧
    (getApp env c s).2.1.authProvider = s.authProvider ∧
    s.nextHandle ≤ (getApp env c s).2.1.nextHandle := by
  unfold getApp
  by_cases hmode : c.authMode = AuthMode.googleOAuth
  · simp [hmode]
  · rw [if_neg hmode]
    cases hg : mapGet s.appCache c.id with
    | some app => simp
    | none =>
      by_cases hsap : (c.authMode = AuthMode.serviceAccountPath ∧
          sapTruthy c.serviceAccountPath)
      · by_cases hex : env.fileExists
            (env.resolvePath (c.serviceAccountPath.getD "")) = false
        · simp [hsap, hex]
        · simp [hsap, hex, Nat.le_succ]
      · simp [hsap, Nat.le_succ]

/-- The app cache after `getApp`: untouched, or one fresh app — constructed
for a non-OAuth connection on a cache miss — added under `connection.id`. -/
theorem getApp_appCache_cases (env : Env) (c : Connection)
    (s : RegistryState) :
    ((getApp env c s).2.1.appCache = s.appCache ∧
      (getApp env c s).2.1.nextHandle = s.nextHandle) ∨
    (∃ app : App, app.handle = s.nextHandle ∧ app.mode = c.authMode ∧
      c.authMode ≠ AuthMode.googleOAuth ∧
      mapGet s.appCache c.id = none ∧
      (getApp env c s).2.1.appCache = mapSet s.appCache c.id app ∧
      (getApp env c s).2.1.nextHandle = s.nextHandle + 1) := by
  unfold getApp
  by_cases hmode : c.authMode = AuthMode.googleOAuth
  · rw [if_pos hmode]
    exact Or.inl ⟨rfl, rfl⟩
  · rw [if_neg hmode]
    cases hg : mapGet s.appCache c.id with
    | some app => exact Or.inl ⟨rfl, rfl⟩
    | none =>
      by_cases hsap : (c.authMode = AuthMode.serviceAccountPath ∧
          sapTruthy c.serviceAccountPath)
      · by_cases hex : env.fileExists
            (env.resolvePath (c.serviceAccountPath.getD "")) = false
        · refine Or.inl ⟨?_, ?_⟩ <;> simp [hsap, hex]
        · exact Or.inr ⟨{ handle := s.nextHandle, credential := Credential.cert (env.fileContents (env.resolvePath (c.serviceAccountPath.getD ""))), projectId := c.projectId, name := c.id, mode := c.authMode }, rfl, rfl, hmode, rfl, by simp [hsap, hex], by simp [hsap, hex]⟩
      · exact Or.inr ⟨{ handle := s.nextHandle, credential := Credential.applicationDefault, projectId := c.projectId, name := c.id, mode := c.authMode }, rfl, rfl, hmode, rfl, by simp [hsap], by simp [hsap]⟩

/-- The state after `getAccessToken` is the state after its inner
`getOAuthClient` call (or unchanged on the non-OAuth early throw). -/
theorem getAccessToken_state (env : Env) (c : Connection)
    (s : RegistryState) :
    (getAccessToken env c s).2.1 = s ∨
    (getAccessToken env c s).2.1 = (getOAuthClient env c s).2.1 := by
  unfold getAccessToken
  by_cases h : isOAuthConnection c = false
  · rw [if_pos h]
    exact Or.inl rfl
  · rw [if_neg h]
    cases hoc : getOAuthClient env c s with
    | mk r rest =>
      obtain ⟨s', eff⟩ := rest
      cases r with
      | error e => exact Or.inr rfl
      | ok client =>
        cases hat : env.accessTokenResult with
        | error e => exact Or.inr rfl
        | ok t =>
          cases t with
          | none => exact Or.inr rfl
          | some tok =>
            by_cases h0 : tok = ""
            · simp only [h0, if_pos rfl]
              exact Or.inr rfl
            · refine Or.inr ?_
              simp [h0]

/-- The state after `getFirestoreClient`: unchanged (cache hit), the state
of a failed inner resolution, or an inner-resolution state with one fresh
Firestore client added under the connection's cache key (only possible on a
cache miss). -/
theorem getFirestoreClient_state_cases (env : Env) (c : Connection)
    (s : RegistryState) :
    (getFirestoreClient env c s).2.1 = s ∨
    (getFirestoreClient env c s).2.1 = (getOAuthClient env c s).2.1 ∨
    (getFirestoreClient env c s).2.1 = (getApp env c s).2.1 ∨
    (∃ s₁ : RegistryState, ∃ f : FirestoreClient,
      (s₁ = (getOAuthClient env c s).2.1 ∨ s₁ = (getApp env c s).2.1) ∧
      mapGet s.firestoreCache (fsCacheKey c) = none ∧
      f.handle = s₁.nextHandle ∧
      (getFirestoreClient env c s).2.1 =
        { s₁ with
            firestoreCache := mapSet s₁.firestoreCache (fsCacheKey c) f,
            nextHandle := s₁.nextHandle + 1 }) := by
  unfold getFirestoreClient
  cases hg : mapGet s.firestoreCache (fsCacheKey c) with
  | some cached => exact Or.inl rfl
  | none =>
    by_cases hmode : c.authMode = AuthMode.googleOAuth
    · rw [if_pos hmode]
      cases hoc : getOAuthClient env c s with
      | mk r rest =>
        obtain ⟨s', eff⟩ := rest
        cases r with
        | error e => exact Or.inr (Or.inl rfl)
        | ok client =>
          refine Or.inr (Or.inr (Or.inr ⟨s', _, Or.inl rfl, rfl, rfl, rfl⟩))
    · rw [if_neg hmode]
      cases hoc : getApp env c s with
      | mk r rest =>
        obtain ⟨s', eff⟩ := rest
        cases r with
        | error e => exact Or.inr (Or.inr (Or.inl rfl))
        | ok app =>
          refine Or.inr (Or.inr (Or.inr ⟨s', _, Or.inr rfl, rfl, rfl, rfl⟩))

/-! ## Disposal lemmas -/

/-- If no key in the snapshot carries the connection's prefix, the
`disposeConnection` loop does nothing. -/
theorem disposeFsLoop_noMatch (env : Env) (cid : String) (ks : List String)
    (s : RegistryState) (acc : List Effect)
    (h : ∀ k ∈ ks, jsStartsWith k (cid ++ ":") = false) :
    disposeFsLoop env cid ks s acc = (.ok (), s, acc) := by
  induction ks with
  | nil => rfl
  | cons k rest ih =>
    rw [disposeFsLoop]
    rw [h k (List.mem_cons_self _ _)]
    exact ih (fun k' hk' => h k' (List.mem_cons_of_mem _ hk'))

/-- The loop touches only the Firestore cache. -/
theorem disposeFsLoop_components (env : Env) (cid : String) (ks : List String)
    (s : RegistryState) (acc : List Effect) :
    (disposeFsLoop env cid ks s acc).2.1.appCache = s.appCache ∧
    (disposeFsLoop env cid ks s acc).2.1.oauthClientCache = s.oauthClientCache ∧
    (disposeFsLoop env cid ks s acc).2.1.nextHandle = s.nextHandle ∧
    (disposeFsLoop env cid ks s acc).2.1.authProvider = s.authProvider := by
  induction ks generalizing s acc with
  | nil => exact ⟨rfl, rfl, rfl, rfl⟩
  | cons k rest ih =>
    rw [disposeFsLoop]
    by_cases hk : jsStartsWith k (cid ++ ":") = true
    · rw [if_pos hk]
      cases hg : mapGet s.firestoreCache k with
      | some f =>
        by_cases ht : env.terminateFails f.handle
        · simp [ht]
        · simp only [ht, if_false, Bool.false_eq_true]
          exact ih _ _
      | none => exact ih _ _
    · rw [if_neg hk]
      exact ih _ _

/-- The loop only removes Firestore entries, never adds any. -/
theorem disposeFsLoop_fs_shrink (env : Env) (cid : String) (ks : List String)
    (s : RegistryState) (acc : List Effect) (p : String × FirestoreClient)
    (h : p ∈ (disposeFsLoop env cid ks s acc).2.1.firestoreCache) :
    p ∈ s.firestoreCache := by
  induction ks generalizing s acc with
  | nil => exact h
  | cons k rest ih =>
    rw [disposeFsLoop] at h
    by_cases hk : jsStartsWith k (cid ++ ":") = true
    · rw [if_pos hk] at h
      cases hg : mapGet s.firestoreCache k with
      | some f =>
        rw [hg] at h
        by_cases ht : env.terminateFails f.handle
        · simp only [ht, if_true] at h
          exact h
        · simp only [ht, if_false, Bool.false_eq_true] at h
          exact mem_mapDelete (ih _ _ h)
      | none =>
        rw [hg] at h
        exact mem_mapDelete (ih _ _ h)
    · rw [if_neg hk] at h
      exact ih _ _ h

/-- When the loop completes without a `terminate()` rejection, every
snapshot key carrying the connection's prefix is gone from the Firestore
cache. -/
theorem disposeFsLoop_ok_removes (env : Env) (cid : String) (ks : List String)
    (s : RegistryState) (acc : List Effect) (s' : RegistryState)
    (acc' : List Effect)
    (h : disposeFsLoop env cid ks s acc = (.ok (), s', acc')) :
    ∀ k ∈ ks, jsStartsWith k (cid ++ ":") = true →
      ∀ v, (k, v) ∉ s'.firestoreCache := by
  induction ks generalizing s acc with
  | nil => intro k hk; cases hk
  | cons k₀ rest ih =>
    intro k hk hpre v hmem
    rw [disposeFsLoop] at h
    by_cases hk₀ : jsStartsWith k₀ (cid ++ ":") = true
    · rw [if_pos hk₀] at h
      cases hg : mapGet s.firestoreCache k₀ with
      | some f =>
        simp only [hg] at h
        by_cases ht : env.terminateFails f.handle
        · simp only [ht, if_true] at h
          cases h
        · simp only [ht, if_false, Bool.false_eq_true] at h
          rcases List.mem_cons.mp hk with hk | hk
          · subst hk
            have hin : (k, v) ∈ mapDelete s.firestoreCache k :=
              disposeFsLoop_fs_shrink env cid rest
                { s with firestoreCache := mapDelete s.firestoreCache k }
                (acc ++ [.firestoreTerminate k]) (k, v)
                (by rw [h]; exact hmem)
            exact not_mem_mapDelete_self hin
          · exact ih _ _ h k hk hpre v hmem
      | none =>
        simp only [hg] at h
        rcases List.mem_cons.mp hk with hk | hk
        · subst hk
          have hin : (k, v) ∈ mapDelete s.firestoreCache k :=
            disposeFsLoop_fs_shrink env cid rest
              { s with firestoreCache := mapDelete s.firestoreCache k }
              acc (k, v) (by rw [h]; exact hmem)
          exact not_mem_mapDelete_self hin
        · exact ih _ _ h k hk hpre v hmem
    · rw [if_neg hk₀] at h
      rcases List.mem_cons.mp hk with hk | hk
      · exact hk₀ (hk ▸ hpre)
      · exact ih _ _ h k hk hpre v hmem

/-- The post-state of the loop-plus-OAuth-delete tail when it completes
without a `terminate()` rejection. -/
theorem disposeConnectionRest_ok_spec (env : Env) (cid : String)
    (s : RegistryState) (acc : List Effect) (s₁ : RegistryState)
    (e₁ : List Effect)
    (hd : disposeConnectionRest env cid s acc = (.ok (), s₁, e₁)) :
    s₁.appCache = s.appCache ∧
    (∀ k v, jsStartsWith k (cid ++ ":") = true → (k, v) ∉ s₁.firestoreCache) ∧
    mapGet s₁.oauthClientCache cid = none ∧
    s₁.nextHandle = s.nextHandle ∧
    s₁.authProvider = s.authProvider ∧
    (∀ p ∈ s₁.firestoreCache, p ∈ s.firestoreCache) ∧
    (∀ p ∈ s₁.oauthClientCache, p ∈ s.oauthClientCache) := by
  unfold disposeConnectionRest at hd
  cases hloop : disposeFsLoop env cid (s.firestoreCache.map Prod.fst) s acc with
  | mk r rest =>
    obtain ⟨s₂, e₂⟩ := rest
    cases r with
    | error e => simp only [hloop] at hd; cases hd
    | ok u =>
      simp only [hloop] at hd
      cases hd
      obtain ⟨hA, hO, hN, hP⟩ :=
        disposeFsLoop_components env cid (s.firestoreCache.map Prod.fst) s acc
      rw [hloop] at hA hO hN hP
      simp only at hA hO hN hP
      refine ⟨hA, ?_, mapGet_mapDelete_self _ _, hN, hP, ?_, ?_⟩
      · intro k v hpre hmem
        have hmem₂ : (k, v) ∈ s₂.firestoreCache := hmem
        by_cases hkk : k ∈ s.firestoreCache.map Prod.fst
        · exact disposeFsLoop_ok_removes env cid _ _ _ _ _ hloop k hkk hpre v
            hmem₂
        · have hin : (k, v) ∈ s.firestoreCache :=
            disposeFsLoop_fs_shrink env cid (s.firestoreCache.map Prod.fst) s
              acc (k, v) (by rw [hloop]; exact hmem₂)
          exact hkk (List.mem_map.mpr ⟨(k, v), hin, rfl⟩)
      · intro p hp
        exact disposeFsLoop_fs_shrink env cid (s.firestoreCache.map Prod.fst)
          s acc p (by rw [hloop]; exact hp)
      · intro p hp
        have hp₂ : p ∈ s₂.oauthClientCache := mem_mapDelete hp
        rw [hO] at hp₂
        exact hp₂

/-- The post-state of a `disposeConnection` call that completed without a
shutdown-hook rejection: the app entry, every Firestore entry with the
connection's key prefix and the OAuth entry are gone, the caches have only
shrunk, and the counter/provider are untouched. -/
theorem disposeConnection_ok_spec (env : Env) (cid : String)
    (s s₁ : RegistryState) (e₁ : List Effect)
    (hd : disposeConnection env cid s = (.ok (), s₁, e₁)) :
    mapGet s₁.appCache cid = none ∧
    (∀ k v, jsStartsWith k (cid ++ ":") = true → (k, v) ∉ s₁.firestoreCache) ∧
    mapGet s₁.oauthClientCache cid = none ∧
    s₁.nextHandle = s.nextHandle ∧
    s₁.authProvider = s.authProvider ∧
    (∀ p ∈ s₁.appCache, p ∈ s.appCache) ∧
    (∀ p ∈ s₁.firestoreCache, p ∈ s.firestoreCache) ∧
    (∀ p ∈ s₁.oauthClientCache, p ∈ s.oauthClientCache) := by
  unfold disposeConnection at hd
  cases hg : mapGet s.appCache cid with
  | some app =>
    simp only [hg] at hd
    by_cases hdel : env.appDeleteFails app.handle
    · simp only [hdel, if_true] at hd
      cases hd
    · simp only [hdel, if_false, Bool.false_eq_true] at hd
      obtain ⟨hA, hFS, hO, hN, hP, hShr, hShrO⟩ :=
        disposeConnectionRest_ok_spec env cid
          { s with appCache := mapDelete s.appCache cid } [.appDelete cid]
          s₁ e₁ hd
      refine ⟨?_, hFS, hO, hN, hP, ?_, hShr, hShrO⟩
      · rw [hA]
        exact mapGet_mapDelete_self _ _
      · intro p hp
        rw [hA] at hp
        exact mem_mapDelete hp
  | none =>
    simp only [hg] at hd
    obtain ⟨hA, hFS, hO, hN, hP, hShr, hShrO⟩ :=
      disposeConnectionRest_ok_spec env cid s [] s₁ e₁ hd
    refine ⟨?_, hFS, hO, hN, hP, ?_, hShr, hShrO⟩
    · rw [hA]
      exact hg
    · intro p hp
      rw [hA] at hp
      exact hp

/-- Whatever its outcome, the disposal tail only removes entries and leaves
the app cache, handle counter and provider slot alone. -/
theorem disposeConnectionRest_shrink (env : Env) (cid : String)
    (s : RegistryState) (acc : List Effect) :
    (disposeConnectionRest env cid s acc).2.1.appCache = s.appCache ∧
    (disposeConnectionRest env cid s acc).2.1.nextHandle = s.nextHandle ∧
    (disposeConnectionRest env cid s acc).2.1.authProvider = s.authProvider ∧
    (∀ p ∈ (disposeConnectionRest env cid s acc).2.1.firestoreCache,
      p ∈ s.firestoreCache) ∧
    (∀ p ∈ (disposeConnectionRest env cid s acc).2.1.oauthClientCache,
      p ∈ s.oauthClientCache) := by
  unfold disposeConnectionRest
  cases hloop : disposeFsLoop env cid (s.firestoreCache.map Prod.fst) s acc with
  | mk r rest =>
    obtain ⟨s₂, e₂⟩ := rest
    obtain ⟨hA, hO, hN, hP⟩ :=
      disposeFsLoop_components env cid (s.firestoreCache.map Prod.fst) s acc
    rw [hloop] at hA hO hN hP
    simp only at hA hO hN hP
    cases r with
    | error e =>
      refine ⟨hA, hN, hP, ?_, ?_⟩
      · intro p hp
        exact disposeFsLoop_fs_shrink env cid (s.firestoreCache.map Prod.fst)
          s acc p (by rw [hloop]; exact hp)
      · intro p hp
        rw [← hO]
        exact hp
    | ok u =>
      refine ⟨hA, hN, hP, ?_, ?_⟩
      · intro p hp
        exact disposeFsLoop_fs_shrink env cid (s.firestoreCache.map Prod.fst)
          s acc p (by rw [hloop]; exact hp)
      · intro p hp
        have hp₂ : p ∈ s₂.oauthClientCache := mem_mapDelete hp
        rw [hO] at hp₂
        exact hp₂

/-- Whatever its outcome, `disposeConnection` only removes entries and
leaves the handle counter and provider slot alone. -/
theorem disposeConnection_shrink (env : Env) (cid : String)
    (s : RegistryState) :
    (∀ p ∈ (disposeConnection env cid s).2.1.appCache, p ∈ s.appCache) ∧
    (disposeConnection env cid s).2.1.nextHandle = s.nextHandle ∧
    (disposeConnection env cid s).2.1.authProvider = s.authProvider ∧
    (∀ p ∈ (disposeConnection env cid s).2.1.firestoreCache,
      p ∈ s.firestoreCache) ∧
    (∀ p ∈ (disposeConnection env cid s).2.1.oauthClientCache,
      p ∈ s.oauthClientCache) := by
  unfold disposeConnection
  split
  · split_ifs with hdel
    · exact ⟨fun p hp => hp, rfl, rfl, fun p hp => hp, fun p hp => hp⟩
    · obtain ⟨hA, hN, hP, hF, hO⟩ := disposeConnectionRest_shrink env cid
        { s with appCache := mapDelete s.appCache cid } [.appDelete cid]
      refine ⟨?_, hN, hP, hF, hO⟩
      intro p hp
      rw [hA] at hp
      exact mem_mapDelete hp
  · obtain ⟨hA, hN, hP, hF, hO⟩ := disposeConnectionRest_shrink env cid s []
    refine ⟨?_, hN, hP, hF, hO⟩
    intro p hp
    rw [hA] at hp
    exact hp

/-- Whatever its outcome, `disposeAll` only removes entries and leaves the
handle counter and provider slot alone. -/
theorem disposeAll_shrink (env : Env) (s : RegistryState) :
    (∀ p ∈ (disposeAll env s).2.1.appCache, p ∈ s.appCache) ∧
    (disposeAll env s).2.1.nextHandle = s.nextHandle ∧
    (disposeAll env s).2.1.authProvider = s.authProvider ∧
    (∀ p ∈ (disposeAll env s).2.1.firestoreCache, p ∈ s.firestoreCache) ∧
    (∀ p ∈ (disposeAll env s).2.1.oauthClientCache, p ∈ s.oauthClientCache) := by
  unfold disposeAll
  cases h1 : s.appCache.find? (fun p => env.appDeleteFails p.2.handle) with
  | some p₀ =>
    exact ⟨fun p hp => List.mem_of_mem_filter hp, rfl, rfl,
      fun p hp => List.mem_of_mem_filter hp, fun p hp => hp⟩
  | none =>
    cases h2 : s.firestoreCache.find? (fun p => env.terminateFails p.2.handle) with
    | some p₀ =>
      exact ⟨fun p hp => List.mem_of_mem_filter hp, rfl, rfl,
        fun p hp => List.mem_of_mem_filter hp, fun p hp => hp⟩
    | none =>
      exact ⟨fun p hp => (by cases hp), rfl, rfl,
        fun p hp => (by cases hp), fun p hp => (by cases hp)⟩

/-! ## Reachable-state invariants -/

/-- Every cached app in a state produced by one operation was already cached
or was constructed by `getApp` for a non-OAuth connection. -/
theorem applyOp_modes (op : Op) (s : RegistryState)
    (h : appCacheModesOk s) : appCacheModesOk (applyOp op s) := by
  have hGetApp : ∀ env c, appCacheModesOk (getApp env c s).2.1 := by
    intro env c
    rcases getApp_appCache_cases env c s with ⟨hA, _⟩ | ⟨app, _, hm, hne, _, hA, _⟩
    · intro p hp
      rw [hA] at hp
      exact h p hp
    · intro p hp
      rw [hA] at hp
      rcases mem_mapSet hp with hp | hp
      · exact h p hp
      · rw [hp]
        simpa [hm] using hne
  cases op with
  | opSetAuthProvider => exact fun p hp => h p hp
  | opGetOAuthClient env c =>
    intro p hp
    rw [applyOp, (getOAuthClient_untouched env c s).1] at hp
    exact h p hp
  | opGetApp env c =>
    intro p hp
    rw [applyOp] at hp
    exact hGetApp env c p hp
  | opGetAccessToken env c =>
    intro p hp
    rw [applyOp] at hp
    rcases getAccessToken_state env c s with he | he
    · rw [he] at hp
      exact h p hp
    · rw [he, (getOAuthClient_untouched env c s).1] at hp
      exact h p hp
  | opGetFirestoreClient env c =>
    intro p hp
    rw [applyOp] at hp
    rcases getFirestoreClient_state_cases env c s with
      he | he | he | ⟨s₁, f, hs₁ | hs₁, _, _, he⟩
    · rw [he] at hp
      exact h p hp
    · rw [he, (getOAuthClient_untouched env c s).1] at hp
      exact h p hp
    · rw [he] at hp
      exact hGetApp env c p hp
    · rw [he] at hp
      have hp₁ : p ∈ s₁.appCache := hp
      rw [hs₁, (getOAuthClient_untouched env c s).1] at hp₁
      exact h p hp₁
    · rw [he] at hp
      have hp₁ : p ∈ s₁.appCache := hp
      rw [hs₁] at hp₁
      exact hGetApp env c p hp₁
  | opDisposeConnection env cid =>
    intro p hp
    exact h p ((disposeConnection_shrink env cid s).1 p hp)
  | opDisposeAll env =>
    intro p hp
    exact h p ((disposeAll_shrink env s).1 p hp)

/-- `appCacheModesOk` holds in every reachable state. -/
theorem reachable_modes (s : RegistryState) (h : Reachable s) :
    appCacheModesOk s := by
  obtain ⟨ops, rfl⟩ := h
  have step : ∀ t, appCacheModesOk t → appCacheModesOk (applyOps ops t) := by
    induction ops with
    | nil => exact fun t ht => ht
    | cons op rest ih => exact fun t ht => ih _ (applyOp_modes op t ht)
  exact step initialState (fun p hp => by cases hp)

/-! ## Claim theorems -/

/-- **C2.** For every connection with `authMode == "googleOAuth"`, `getApp`
throws the unsupported-mode error immediately: for every cache state the
result is that error, the state is unchanged (so no cache entry was read or
written), and the effect trace is empty (no file or network I/O). -/
theorem claim_C2_getApp_rejects_oauth (env : Env) (c : Connection)
    (s : RegistryState) (h : c.authMode = AuthMode.googleOAuth) :
    getApp env c s = (.error .unsupportedMode, s, []) := by
  unfold getApp
  rw [if_pos h]

/-- Witness for C2 at a concrete OAuth connection. -/
theorem claim_C2_witness :
    getApp envBase cOAuthConn initialState =
      (.error .unsupportedMode, initialState, []) :=
  claim_C2_getApp_rejects_oauth envBase cOAuthConn initialState rfl

/-- **C6.** `getApp` on an uncached `serviceAccountPath` connection with a
truthy path naming a nonexistent file fails with the file-not-found
credential error, leaves the state unchanged (nothing constructed or
cached), and its only external action is the existence probe — no file
read, no network effect, no construction. -/
theorem claim_C6_getApp_missing_key_file (env : Env) (c : Connection)
    (s : RegistryState) (h1 : c.authMode = AuthMode.serviceAccountPath)
    (h2 : sapTruthy c.serviceAccountPath = true)
    (h3 : env.fileExists (env.resolvePath (c.serviceAccountPath.getD "")) = false)
    (h4 : mapGet s.appCache c.id = none) :
    getApp env c s =
      (.error (.serviceAccountFileNotFound
          (env.resolvePath (c.serviceAccountPath.getD ""))), s,
       [.fileExistsCheck (env.resolvePath (c.serviceAccountPath.getD ""))]) := by
  unfold getApp
  simp [h1, h2, h3, h4]

/-- Witness for C6: `/missing/key.json` does not exist in `envBase`. -/
theorem claim_C6_witness :
    getApp envBase cSap initialState =
      (.error (.serviceAccountFileNotFound "/missing/key.json"), initialState,
       [.fileExistsCheck "/missing/key.json"]) :=
  claim_C6_getApp_missing_key_file envBase cSap initialState rfl (by decide)
    rfl rfl

/-- **C7.** `getAccessToken` on an OAuth connection with no cached OAuth
client and no (or an empty) stored refresh token fails with the
not-signed-in error after only a secret-store read: the trace contains no
token-endpoint request and the state is unchanged. -/
theorem claim_C7_getAccessToken_not_signed_in (env : Env) (c : Connection)
    (s : RegistryState) (h1 : c.authMode = AuthMode.googleOAuth)
    (h2 : mapGet s.oauthClientCache c.id = none)
    (h3 : s.authProvider = true)
    (h4 : tokenTruthy env.refreshToken = false) :
    getAccessToken env c s = (.error .notSignedIn, s, [.secretStoreRead]) := by
  have hOC : getOAuthClient env c s = (.error .notSignedIn, s, [.secretStoreRead]) := by
    unfold getOAuthClient
    cases ht : env.refreshToken with
    | none => simp [h2, h3, ht]
    | some tok =>
      rw [ht] at h4
      simp only [tokenTruthy, decide_eq_false_iff_not, not_not] at h4
      simp [h2, h3, h4]
  unfold getAccessToken
  simp [isOAuthConnection, h1, hOC]

/-- Witness for C7: empty secret store in `envNoToken`. -/
theorem claim_C7_witness :
    getAccessToken envNoToken cOAuthConn sReady =
      (.error .notSignedIn, sReady, [.secretStoreRead]) :=
  claim_C7_getAccessToken_not_signed_in envNoToken cOAuthConn sReady rfl rfl
    rfl rfl

/-- **C10.** `getApp` on an uncached `serviceAccountPath` connection whose
`serviceAccountPath` is `undefined` or empty does not fail: it falls
through to the Application Default Credentials branch, constructs an app
with the ADC credential and caches it under `connection.id`, touching no
file (the trace is just the construction). -/
theorem claim_C10_empty_sap_falls_through_to_adc (env : Env) (c : Connection)
    (s : RegistryState) (h1 : c.authMode = AuthMode.serviceAccountPath)
    (h2 : sapTruthy c.serviceAccountPath = false)
    (h3 : mapGet s.appCache c.id = none) :
    getApp env c s =
      (.ok { handle := s.nextHandle, credential := .applicationDefault,
             projectId := c.projectId, name := c.id, mode := c.authMode },
       { s with
           appCache := mapSet s.appCache c.id
             { handle := s.nextHandle, credential := .applicationDefault,
               projectId := c.projectId, name := c.id, mode := c.authMode },
           nextHandle := s.nextHandle + 1 },
       [.constructApp s.nextHandle]) ∧
    mapGet (getApp env c s).2.1.appCache c.id =
      some { handle := s.nextHandle, credential := .applicationDefault,
             projectId := c.projectId, name := c.id, mode := c.authMode } := by
  have heq : getApp env c s =
      (.ok { handle := s.nextHandle, credential := .applicationDefault,
             projectId := c.projectId, name := c.id, mode := c.authMode },
       { s with
           appCache := mapSet s.appCache c.id
             { handle := s.nextHandle, credential := .applicationDefault,
               projectId := c.projectId, name := c.id, mode := c.authMode },
           nextHandle := s.nextHandle + 1 },
       [.constructApp s.nextHandle]) := by
    unfold getApp
    simp [h1, h2, h3]
  refine ⟨heq, ?_⟩
  rw [heq]
  exact mapGet_mapSet_self _ _ _

/-- **C9.** Disposing a connection id that is present in no cache is a
no-op: the call succeeds, performs no external action and leaves the state
untouched.  Consequently a second `disposeConnection` right after a
successful one is such a no-op — disposing twice has the effect of
disposing once. -/
theorem claim_C9_dispose_unknown_noop (env : Env) (cid : String)
    (s : RegistryState) :
    (idAbsent cid s → disposeConnection env cid s = (.ok (), s, [])) ∧
    (∀ s₁ e₁, disposeConnection env cid s = (.ok (), s₁, e₁) →
      disposeConnection env cid s₁ = (.ok (), s₁, [])) := by
  have part1 : ∀ t : RegistryState, idAbsent cid t →
      disposeConnection env cid t = (.ok (), t, []) := by
    intro t ht
    obtain ⟨hApp, hFs, hOC⟩ := ht
    unfold disposeConnection disposeConnectionRest
    simp only [hApp, disposeFsLoop_noMatch env cid _ t [] hFs,
      mapDelete_absent hOC]
  refine ⟨part1 s, ?_⟩
  intro s₁ e₁ hd
  obtain ⟨hApp, hFs, hOC, _, _, _, _, _⟩ :=
    disposeConnection_ok_spec env cid s s₁ e₁ hd
  refine part1 s₁ ⟨hApp, ?_, hOC⟩
  intro k hk
  obtain ⟨⟨k', v⟩, hmem, hfst⟩ := List.mem_map.mp hk
  subst hfst
  by_contra hne
  exact hFs k' v (Bool.not_eq_false _ ▸ hne) hmem

/-- Witness for C9: disposing an id that was never cached, in a state with
one unrelated cached connection, is a no-op. -/
theorem claim_C9_witness :
    disposeConnection envBase "unknown-conn"
        (applyOps [Op.opGetApp envBase cAdc] initialState) =
      (.ok (), applyOps [Op.opGetApp envBase cAdc] initialState, []) :=
  (claim_C9_dispose_unknown_noop envBase "unknown-conn"
    (applyOps [Op.opGetApp envBase cAdc] initialState)).1 (by
      refine ⟨?_, ?_, ?_⟩ <;> decide)

/-- A cache hit: `getFirestoreClient` returns the cached client unchanged,
with no external action. -/
theorem getFirestoreClient_hit (env : Env) (c : Connection)
    (s : RegistryState) (f : FirestoreClient)
    (h : mapGet s.firestoreCache (fsCacheKey c) = some f) :
    getFirestoreClient env c s = (.ok f, s, []) := by
  unfold getFirestoreClient
  simp only [h]

/-- A cache hit: `getApp` returns the cached app unchanged, with no
external action. -/
theorem getApp_hit (env : Env) (c : Connection) (s : RegistryState) (a : App)
    (hmode : c.authMode ≠ AuthMode.googleOAuth)
    (h : mapGet s.appCache c.id = some a) :
    getApp env c s = (.ok a, s, []) := by
  unfold getApp
  rw [if_neg hmode]
  simp only [h]

/-- A successful `getFirestoreClient` leaves its result under the
connection's cache key. -/
theorem getFirestoreClient_ok_caches (env : Env) (c : Connection)
    (s : RegistryState) (f : FirestoreClient) (s' : RegistryState)
    (eff : List Effect) (h : getFirestoreClient env c s = (.ok f, s', eff)) :
    mapGet s'.firestoreCache (fsCacheKey c) = some f := by
  unfold getFirestoreClient at h
  cases hg : mapGet s.firestoreCache (fsCacheKey c) with
  | some cached =>
    simp only [hg] at h
    cases h
    exact hg
  | none =>
    simp only [hg] at h
    by_cases hmode : c.authMode = AuthMode.googleOAuth
    · rw [if_pos hmode] at h
      cases hoc : getOAuthClient env c s with
      | mk r rest =>
        obtain ⟨s₁, e₁⟩ := rest
        cases r with
        | error e => simp only [hoc] at h; cases h
        | ok client =>
          simp only [hoc] at h
          cases h
          exact mapGet_mapSet_self _ _ _
    · rw [if_neg hmode] at h
      cases hoc : getApp env c s with
      | mk r rest =>
        obtain ⟨s₁, e₁⟩ := rest
        cases r with
        | error e => simp only [hoc] at h; cases h
        | ok app =>
          simp only [hoc] at h
          cases h
          exact mapGet_mapSet_self _ _ _

/-- A successful `getApp` leaves its result under `connection.id`, and only
non-OAuth connections ever succeed. -/
theorem getApp_ok_caches (env : Env) (c : Connection) (s : RegistryState)
    (a : App) (s' : RegistryState) (eff : List Effect)
    (h : getApp env c s = (.ok a, s', eff)) :
    mapGet s'.appCache c.id = some a ∧ c.authMode ≠ AuthMode.googleOAuth := by
  unfold getApp at h
  by_cases hmode : c.authMode = AuthMode.googleOAuth
  · rw [if_pos hmode] at h
    cases h
  · rw [if_neg hmode] at h
    refine ⟨?_, hmode⟩
    cases hg : mapGet s.appCache c.id with
    | some app =>
      simp only [hg] at h
      cases h
      exact hg
    | none =>
      simp only [hg] at h
      by_cases hsap : (c.authMode = AuthMode.serviceAccountPath ∧
          sapTruthy c.serviceAccountPath)
      · by_cases hex : env.fileExists
            (env.resolvePath (c.serviceAccountPath.getD "")) = false
        · simp only [hsap, if_true, hex] at h
          cases h
        · simp only [hsap, if_true, hex, if_false] at h
          cases h
          exact mapGet_mapSet_self _ _ _
      · simp only [hsap, if_false] at h
        cases h
        exact mapGet_mapSet_self _ _ _

/-- `getApp` never removes or overwrites an existing app-cache entry. -/
theorem getApp_preserves_appCache_entry (env : Env) (c : Connection)
    (s : RegistryState) (k : String) (a : App)
    (h : mapGet s.appCache k = some a) :
    mapGet (getApp env c s).2.1.appCache k = some a := by
  rcases getApp_appCache_cases env c s with ⟨hA, _⟩ |
    ⟨app, _, _, _, hmiss, hA, _⟩
  · rw [hA]
    exact h
  · rw [hA]
    have hk : k ≠ c.id := by
      intro he
      rw [he, hmiss] at h
      cases h
    rw [mapGet_mapSet_ne _ _ _ _ hk]
    exact h

/-- `getFirestoreClient` never removes or overwrites an existing
Firestore-cache entry. -/
theorem getFirestoreClient_preserves_fs_entry (env : Env) (c : Connection)
    (s : RegistryState) (k : String) (f : FirestoreClient)
    (h : mapGet s.firestoreCache k = some f) :
    mapGet (getFirestoreClient env c s).2.1.firestoreCache k = some f := by
  rcases getFirestoreClient_state_cases env c s with he | he | he |
    ⟨s₁, f', hs₁, hmiss, _, he⟩
  · rw [he]
    exact h
  · rw [he, (getOAuthClient_untouched env c s).2.1]
    exact h
  · rw [he, (getApp_untouched env c s).1]
    exact h
  · rw [he]
    have hs₁fs : s₁.firestoreCache = s.firestoreCache := by
      rcases hs₁ with h1 | h1
      · rw [h1, (getOAuthClient_untouched env c s).2.1]
      · rw [h1, (getApp_untouched env c s).1]
    have hk : k ≠ fsCacheKey c := by
      intro he'
      rw [he', hmiss] at h
      cases h
    show mapGet (mapSet s₁.firestoreCache (fsCacheKey c) f') k = some f
    rw [mapGet_mapSet_ne _ _ _ _ hk, hs₁fs]
    exact h

/-- No operation other than the two disposals removes or overwrites an
existing Firestore-cache entry. -/
theorem applyOp_preserves_fs_entry (op : Op) (s : RegistryState) (k : String)
    (f : FirestoreClient) (hnd : Op.isDisposal op = false)
    (h : mapGet s.firestoreCache k = some f) :
    mapGet (applyOp op s).firestoreCache k = some f := by
  cases op with
  | opSetAuthProvider => exact h
  | opGetOAuthClient env c =>
    rw [applyOp, (getOAuthClient_untouched env c s).2.1]
    exact h
  | opGetAccessToken env c =>
    rw [applyOp]
    rcases getAccessToken_state env c s with he | he
    · rw [he]
      exact h
    · rw [he, (getOAuthClient_untouched env c s).2.1]
      exact h
  | opGetApp env c =>
    rw [applyOp, (getApp_untouched env c s).1]
    exact h
  | opGetFirestoreClient env c =>
    exact getFirestoreClient_preserves_fs_entry env c s k f h
  | opDisposeConnection env cid => simp [Op.isDisposal] at hnd
  | opDisposeAll env => simp [Op.isDisposal] at hnd

/-- No operation other than the two disposals removes or overwrites an
existing app-cache entry. -/
theorem applyOp_preserves_app_entry (op : Op) (s : RegistryState)
    (k : String) (a : App) (hnd : Op.isDisposal op = false)
    (h : mapGet s.appCache k = some a) :
    mapGet (applyOp op s).appCache k = some a := by
  cases op with
  | opSetAuthProvider => exact h
  | opGetOAuthClient env c =>
    rw [applyOp, (getOAuthClient_untouched env c s).1]
    exact h
  | opGetAccessToken env c =>
    rw [applyOp]
    rcases getAccessToken_state env c s with he | he
    · rw [he]
      exact h
    · rw [he, (getOAuthClient_untouched env c s).1]
      exact h
  | opGetApp env c => exact getApp_preserves_appCache_entry env c s k a h
  | opGetFirestoreClient env c =>
    rw [applyOp]
    rcases getFirestoreClient_state_cases env c s with he | he | he |
      ⟨s₁, f', hs₁, hmiss, _, he⟩
    · rw [he]
      exact h
    · rw [he, (getOAuthClient_untouched env c s).1]
      exact h
    · rw [he]
      exact getApp_preserves_appCache_entry env c s k a h
    · rw [he]
      show mapGet s₁.appCache k = some a
      rcases hs₁ with h1 | h1
      · rw [h1, (getOAuthClient_untouched env c s).1]
        exact h
      · rw [h1]
        exact getApp_preserves_appCache_entry env c s k a h
  | opDisposeConnection env cid => simp [Op.isDisposal] at hnd
  | opDisposeAll env => simp [Op.isDisposal] at hnd

/-- Entry preservation along any disposal-free call sequence. -/
theorem applyOps_preserves_fs_entry (ops : List Op) (t : RegistryState)
    (k : String) (f : FirestoreClient)
    (hnd : ∀ op ∈ ops, Op.isDisposal op = false)
    (h : mapGet t.firestoreCache k = some f) :
    mapGet (applyOps ops t).firestoreCache k = some f := by
  induction ops generalizing t with
  | nil => exact h
  | cons op rest ih =>
    exact ih _ (fun o ho => hnd o (List.mem_cons_of_mem _ ho))
      (applyOp_preserves_fs_entry op t k f (hnd op (List.mem_cons_self _ _)) h)

/-- App-entry preservation along any disposal-free call sequence. -/
theorem applyOps_preserves_app_entry (ops : List Op) (t : RegistryState)
    (k : String) (a : App)
    (hnd : ∀ op ∈ ops, Op.isDisposal op = false)
    (h : mapGet t.appCache k = some a) :
    mapGet (applyOps ops t).appCache k = some a := by
  induction ops generalizing t with
  | nil => exact h
  | cons op rest ih =>
    exact ih _ (fun o ho => hnd o (List.mem_cons_of_mem _ ho))
      (applyOp_preserves_app_entry op t k a (hnd op (List.mem_cons_self _ _)) h)

/-- `getOAuthClient` preserves the handle bound. -/
theorem getOAuthClient_handles (env : Env) (c : Connection)
    (s : RegistryState) (h : handlesBound s) :
    handlesBound (getOAuthClient env c s).2.1 := by
  obtain ⟨h1, h2, h3⟩ := h
  obtain ⟨hA, hF, _, _⟩ := getOAuthClient_untouched env c s
  rcases getOAuthClient_cache_cases env c s with ⟨hc, hn⟩ |
    ⟨client, hch, hc, hn⟩
  · refine ⟨?_, ?_, ?_⟩ <;> intro p hp <;> rw [hn]
    · rw [hA] at hp
      exact h1 p hp
    · rw [hF] at hp
      exact h2 p hp
    · rw [hc] at hp
      exact h3 p hp
  · refine ⟨?_, ?_, ?_⟩ <;> intro p hp <;> rw [hn]
    · rw [hA] at hp
      exact Nat.lt_succ_of_lt (h1 p hp)
    · rw [hF] at hp
      exact Nat.lt_succ_of_lt (h2 p hp)
    · rw [hc] at hp
      rcases mem_mapSet hp with hp | hp
      · exact Nat.lt_succ_of_lt (h3 p hp)
      · rw [hp]
        show client.handle < s.nextHandle + 1
        rw [hch]
        exact Nat.lt_succ_self _

/-- `getApp` preserves the handle bound. -/
theorem getApp_handles (env : Env) (c : Connection) (s : RegistryState)
    (h : handlesBound s) : handlesBound (getApp env c s).2.1 := by
  obtain ⟨h1, h2, h3⟩ := h
  obtain ⟨hF, hO, _, _⟩ := getApp_untouched env c s
  rcases getApp_appCache_cases env c s with ⟨hA, hn⟩ |
    ⟨app, hah, _, _, _, hA, hn⟩
  · refine ⟨?_, ?_, ?_⟩ <;> intro p hp <;> rw [hn]
    · rw [hA] at hp
      exact h1 p hp
    · rw [hF] at hp
      exact h2 p hp
    · rw [hO] at hp
      exact h3 p hp
  · refine ⟨?_, ?_, ?_⟩ <;> intro p hp <;> rw [hn]
    · rw [hA] at hp
      rcases mem_mapSet hp with hp | hp
      · exact Nat.lt_succ_of_lt (h1 p hp)
      · rw [hp]
        show app.handle < s.nextHandle + 1
        rw [hah]
        exact Nat.lt_succ_self _
    · rw [hF] at hp
      exact Nat.lt_succ_of_lt (h2 p hp)
    · rw [hO] at hp
      exact Nat.lt_succ_of_lt (h3 p hp)

/-- `getFirestoreClient` preserves the handle bound. -/
theorem getFirestoreClient_handles (env : Env) (c : Connection)
    (s : RegistryState) (h : handlesBound s) :
    handlesBound (getFirestoreClient env c s).2.1 := by
  rcases getFirestoreClient_state_cases env c s with he | he | he |
    ⟨s₁, f', hs₁, _, hfh, he⟩
  · rw [he]
    exact h
  · rw [he]
    exact getOAuthClient_handles env c s h
  · rw [he]
    exact getApp_handles env c s h
  · rw [he]
    have hb₁ : handlesBound s₁ := by
      rcases hs₁ with h1 | h1
      · rw [h1]
        exact getOAuthClient_handles env c s h
      · rw [h1]
        exact getApp_handles env c s h
    obtain ⟨h1, h2, h3⟩ := hb₁
    refine ⟨?_, ?_, ?_⟩ <;> intro p hp
    · exact Nat.lt_succ_of_lt (h1 p hp)
    · rcases mem_mapSet hp with hp | hp
      · exact Nat.lt_succ_of_lt (h2 p hp)
      · rw [hp]
        show f'.handle < s₁.nextHandle + 1
        rw [hfh]
        exact Nat.lt_succ_self _
    · exact Nat.lt_succ_of_lt (h3 p hp)

/-- Every operation preserves the handle bound. -/
theorem applyOp_handles (op : Op) (s : RegistryState) (h : handlesBound s) :
    handlesBound (applyOp op s) := by
  cases op with
  | opSetAuthProvider => exact h
  | opGetOAuthClient env c => exact getOAuthClient_handles env c s h
  | opGetApp env c => exact getApp_handles env c s h
  | opGetFirestoreClient env c => exact getFirestoreClient_handles env c s h
  | opGetAccessToken env c =>
    show handlesBound (getAccessToken env c s).2.1
    rcases getAccessToken_state env c s with he | he
    · rw [he]
      exact h
    · rw [he]
      exact getOAuthClient_handles env c s h
  | opDisposeConnection env cid =>
    obtain ⟨hA, hN, _, hF, hO⟩ := disposeConnection_shrink env cid s
    obtain ⟨h1, h2, h3⟩ := h
    refine ⟨?_, ?_, ?_⟩ <;> intro p hp <;> rw [show (applyOp (Op.opDisposeConnection env cid) s).nextHandle = s.nextHandle from hN]
    · exact h1 p (hA p hp)
    · exact h2 p (hF p hp)
    · exact h3 p (hO p hp)
  | opDisposeAll env =>
    obtain ⟨hA, hN, _, hF, hO⟩ := disposeAll_shrink env s
    obtain ⟨h1, h2, h3⟩ := h
    refine ⟨?_, ?_, ?_⟩ <;> intro p hp <;> rw [show (applyOp (Op.opDisposeAll env) s).nextHandle = s.nextHandle from hN]
    · exact h1 p (hA p hp)
    · exact h2 p (hF p hp)
    · exact h3 p (hO p hp)

/-- The handle bound holds in every reachable state. -/
theorem reachable_handles (s : RegistryState) (h : Reachable s) :
    handlesBound s := by
  obtain ⟨ops, rfl⟩ := h
  have step : ∀ t, handlesBound t → handlesBound (applyOps ops t) := by
    induction ops with
    | nil => exact fun t ht => ht
    | cons op rest ih => exact fun t ht => ih _ (applyOp_handles op t ht)
  exact step initialState
    ⟨fun p hp => (by cases hp), fun p hp => (by cases hp),
     fun p hp => (by cases hp)⟩

/-- On a cache miss with the provider set, a stored refresh token and
configured build-time constants, `getOAuthClient` succeeds and bumps the
handle counter. -/
theorem getOAuthClient_miss_succeeds (env : Env) (c : Connection)
    (s : RegistryState) (hmiss : mapGet s.oauthClientCache c.id = none)
    (hprov : s.authProvider = true)
    (htok : tokenTruthy env.refreshToken = true)
    (hid : 10 ≤ env.googleClientId.length)
    (hsec : 10 ≤ env.googleClientSecret.length) :
    ∃ cl s₁ e₁, getOAuthClient env c s = (.ok cl, s₁, e₁) ∧
      s₁.nextHandle = s.nextHandle + 1 := by
  cases ht : env.refreshToken with
  | none =>
    rw [ht] at htok
    simp [tokenTruthy] at htok
  | some tok =>
    rw [ht] at htok
    have htok' : ¬(tok = "") := by simpa [tokenTruthy] using htok
    have hoc :
        getOAuthClient env c s =
          (.ok { handle := s.nextHandle, refreshToken := tok },
           { s with
               oauthClientCache := mapSet s.oauthClientCache c.id
                 { handle := s.nextHandle, refreshToken := tok },
               nextHandle := s.nextHandle + 1 },
           [.secretStoreRead, .constructOAuthClient s.nextHandle]) := by
      unfold getOAuthClient
      simp [hmiss, hprov, ht, htok', Nat.not_lt.mpr hid, Nat.not_lt.mpr hsec]
    exact ⟨_, _, _, hoc, rfl⟩

/-- On a cache miss for a non-OAuth connection whose service-account file
(when one is demanded) exists, `getApp` succeeds and bumps the handle
counter. -/
theorem getApp_miss_succeeds (env : Env) (c : Connection) (s : RegistryState)
    (hmode : c.authMode ≠ AuthMode.googleOAuth)
    (hmiss : mapGet s.appCache c.id = none)
    (hfile : (c.authMode = AuthMode.serviceAccountPath ∧
        sapTruthy c.serviceAccountPath = true) →
      env.fileExists (env.resolvePath (c.serviceAccountPath.getD "")) = true) :
    ∃ a s₁ e₁, getApp env c s = (.ok a, s₁, e₁) ∧
      s₁.nextHandle = s.nextHandle + 1 := by
  by_cases hsap : (c.authMode = AuthMode.serviceAccountPath ∧
      sapTruthy c.serviceAccountPath = true)
  · have hx := hfile hsap
    have happ :
        getApp env c s =
          (.ok { handle := s.nextHandle,
                 credential := Credential.cert (env.fileContents
                   (env.resolvePath (c.serviceAccountPath.getD ""))),
                 projectId := c.projectId, name := c.id,
                 mode := c.authMode },
           { s with
               appCache := mapSet s.appCache c.id
                 { handle := s.nextHandle,
                   credential := Credential.cert (env.fileContents
                     (env.resolvePath (c.serviceAccountPath.getD ""))),
                   projectId := c.projectId, name := c.id,
                   mode := c.authMode },
               nextHandle := s.nextHandle + 1 },
           [.fileExistsCheck (env.resolvePath (c.serviceAccountPath.getD "")),
            .fileRead (env.resolvePath (c.serviceAccountPath.getD "")),
            .constructApp s.nextHandle]) := by
      unfold getApp
      rw [if_neg hmode]
      simp [hmiss, hsap, hx]
    exact ⟨_, _, _, happ, rfl⟩
  · have happ :
        getApp env c s =
          (.ok { handle := s.nextHandle,
                 credential := Credential.applicationDefault,
                 projectId := c.projectId, name := c.id,
                 mode := c.authMode },
           { s with
               appCache := mapSet s.appCache c.id
                 { handle := s.nextHandle,
                   credential := Credential.applicationDefault,
                   projectId := c.projectId, name := c.id,
                   mode := c.authMode },
               nextHandle := s.nextHandle + 1 },
           [.constructApp s.nextHandle]) := by
      unfold getApp
      rw [if_neg hmode]
      simp [hmiss, hsap]
    exact ⟨_, _, _, happ, rfl⟩

/-- On a Firestore-cache miss, when `canConstructFs` holds,
`getFirestoreClient` succeeds with a freshly constructed client: its handle
is at least the incoming counter and its construction is in the trace. -/
theorem getFirestoreClient_miss_succeeds (env : Env) (c : Connection)
    (s : RegistryState)
    (hmiss : mapGet s.firestoreCache (fsCacheKey c) = none)
    (hcan : canConstructFs env c s) :
    ∃ f' s₂ e₂, getFirestoreClient env c s = (.ok f', s₂, e₂) ∧
      s.nextHandle ≤ f'.handle ∧
      Effect.constructFirestore f'.handle ∈ e₂ := by
  unfold getFirestoreClient
  simp only [hmiss]
  unfold canConstructFs at hcan
  by_cases hmode : c.authMode = AuthMode.googleOAuth
  · rw [if_pos hmode]
    rw [if_pos hmode] at hcan
    cases hg : mapGet s.oauthClientCache c.id with
    | some client =>
      have hoc : getOAuthClient env c s = (.ok client, s, []) := by
        unfold getOAuthClient
        simp only [hg]
      simp only [hoc]
      exact ⟨_, _, _, rfl, Nat.le_refl _, by simp⟩
    | none =>
      rcases hcan with hne | ⟨hprov, htok, hid, hsec⟩
      · exact absurd hg hne
      · obtain ⟨cl, s₁, e₁, hoceq, hn⟩ :=
          getOAuthClient_miss_succeeds env c s hg hprov htok hid hsec
        simp only [hoceq]
        refine ⟨_, _, _, rfl, ?_, by simp⟩
        rw [hn]
        exact Nat.le_succ _
  · rw [if_neg hmode]
    rw [if_neg hmode] at hcan
    cases hg : mapGet s.appCache c.id with
    | some a =>
      have hap : getApp env c s = (.ok a, s, []) := getApp_hit env c s a hmode hg
      simp only [hap]
      exact ⟨_, _, _, rfl, Nat.le_refl _, by simp⟩
    | none =>
      rcases hcan with hne | himp
      · exact absurd hg hne
      · obtain ⟨a, s₁, e₁, hape, hn⟩ := getApp_miss_succeeds env c s hmode hg himp
        simp only [hape]
        refine ⟨_, _, _, rfl, ?_, by simp⟩
        rw [hn]
        exact Nat.le_succ _

/-- **C4.** For every reachable state with a cached Firestore client for
connection `c`, a `disposeConnection(c.id)` that completes without a
shutdown-hook rejection removes the entry, and — whenever the construction
path can succeed (`canConstructFs`) — an immediately following
`getFirestoreClient(c)` succeeds with a freshly constructed client that is
not the previously cached instance: disposal never permanently poisons the
cache key. -/
theorem claim_C4_dispose_then_resolve_fresh (env : Env) (c : Connection)
    (s : RegistryState) (f : FirestoreClient) (s₁ : RegistryState)
    (e₁ : List Effect) (hR : Reachable s)
    (hf : mapGet s.firestoreCache (fsCacheKey c) = some f)
    (hd : disposeConnection env c.id s = (.ok (), s₁, e₁))
    (hcan : canConstructFs env c s₁) :
    mapGet s₁.firestoreCache (fsCacheKey c) = none ∧
    ∃ f' s₂ e₂, getFirestoreClient env c s₁ = (.ok f', s₂, e₂) ∧
      f' ≠ f ∧ Effect.constructFirestore f'.handle ∈ e₂ := by
  obtain ⟨_, hFs, _, hN, _, _, _, _⟩ :=
    disposeConnection_ok_spec env c.id s s₁ e₁ hd
  have hmiss : mapGet s₁.firestoreCache (fsCacheKey c) = none := by
    cases hq : mapGet s₁.firestoreCache (fsCacheKey c) with
    | none => rfl
    | some v =>
      exact absurd (mapGet_some_mem hq)
        (hFs (fsCacheKey c) v (jsStartsWith_fsCacheKey c))
  refine ⟨hmiss, ?_⟩
  obtain ⟨f', s₂, e₂, hgeq, hge, hmem⟩ :=
    getFirestoreClient_miss_succeeds env c s₁ hmiss hcan
  refine ⟨f', s₂, e₂, hgeq, ?_, hmem⟩
  have hb := reachable_handles s hR
  have hfb : f.handle < s.nextHandle := hb.2.1 _ (mapGet_some_mem hf)
  intro hEq
  have hle : s.nextHandle ≤ f'.handle := hN ▸ hge
  rw [hEq] at hle
  exact absurd hfb (Nat.not_lt.mpr hle)

/-- Witness for C4: dispose the cached ADC connection of `sC1`, then
resolve it again. -/
theorem claim_C4_witness :
    mapGet (disposeConnection envBase cAdc.id sC1).2.1.firestoreCache
      (fsCacheKey cAdc) = none ∧
    ∃ f' s₂ e₂,
      getFirestoreClient envBase cAdc
          (disposeConnection envBase cAdc.id sC1).2.1 = (.ok f', s₂, e₂) ∧
      f' ≠ { handle := 1, projectId := "proj-a", databaseId := "(default)",
             viaApp := some 0 } ∧
      Effect.constructFirestore f'.handle ∈ e₂ :=
  claim_C4_dispose_then_resolve_fresh envBase cAdc sC1
    { handle := 1, projectId := "proj-a", databaseId := "(default)",
      viaApp := some 0 }
    (disposeConnection envBase cAdc.id sC1).2.1
    (disposeConnection envBase cAdc.id sC1).2.2
    ⟨[Op.opSetAuthProvider, Op.opGetFirestoreClient envBase cAdc,
      Op.opGetOAuthClient envBase cOAuthConn], rfl⟩
    (by decide) rfl (Or.inr (fun h => absurd h.1 (by decide)))

/-- **C5.** Once a resolution has succeeded, every later call with the same
connection — after any disposal-free sequence of other calls — returns the
identical cached instance, changes nothing, and performs no external action
(in particular no second construction): for `getFirestoreClient` keyed by
`(connection.id, connection.databaseId)` and for `getApp` keyed by
`connection.id`. -/
theorem claim_C5_repeat_resolution_returns_cached_instance :
    (∀ (env env' : Env) (c : Connection) (s : RegistryState)
      (f : FirestoreClient) (s' : RegistryState) (eff : List Effect)
      (ops : List Op),
      getFirestoreClient env c s = (.ok f, s', eff) →
      (∀ op ∈ ops, Op.isDisposal op = false) →
      getFirestoreClient env' c (applyOps ops s') =
        (.ok f, applyOps ops s', [])) ∧
    (∀ (env env' : Env) (c : Connection) (s : RegistryState) (a : App)
      (s' : RegistryState) (eff : List Effect) (ops : List Op),
      getApp env c s = (.ok a, s', eff) →
      (∀ op ∈ ops, Op.isDisposal op = false) →
      getApp env' c (applyOps ops s') = (.ok a, applyOps ops s', [])) := by
  constructor
  · intro env env' c s f s' eff ops hok hnd
    have hcache := getFirestoreClient_ok_caches env c s f s' eff hok
    exact getFirestoreClient_hit env' c _ f
      (applyOps_preserves_fs_entry ops s' (fsCacheKey c) f hnd hcache)
  · intro env env' c s a s' eff ops hok hnd
    obtain ⟨hcache, hmode⟩ := getApp_ok_caches env c s a s' eff hok
    exact getApp_hit env' c _ a hmode
      (applyOps_preserves_app_entry ops s' c.id a hnd hcache)

/-- Witness for C5: a second `getFirestoreClient` for the ADC connection
returns the client cached by the first call. -/
theorem claim_C5_witness :
    getFirestoreClient envBase cAdc
        (applyOps [] (getFirestoreClient envBase cAdc sReady).2.1) =
      (.ok { handle := 1, projectId := "proj-a", databaseId := "(default)",
             viaApp := some 0 },
       applyOps [] (getFirestoreClient envBase cAdc sReady).2.1, []) :=
  (claim_C5_repeat_resolution_returns_cached_instance).1 envBase envBase cAdc
    sReady
    { handle := 1, projectId := "proj-a", databaseId := "(default)",
      viaApp := some 0 }
    (getFirestoreClient envBase cAdc sReady).2.1
    (getFirestoreClient envBase cAdc sReady).2.2 [] rfl
    (fun op ho => absurd ho (List.not_mem_nil op))

/-- **C3 (counterexample).** Two `getOAuthClient` resolutions for the same
connection in flight concurrently (schedule A,B,A,B from `sReady` under
`envBase`): both callers pass the cache check before either cache write, so
*two* constructions occur and the callers finish with *different* client
instances — refuting single-flight construction.  (The machine is the
sequential `getOAuthClient` cut at its `await`;
`runToCompletion_eq_getOAuthClient` checks that correspondence.) -/
theorem claim_C3_counterexample :
    oauthConstructionCount
        (runSchedule envBase cOAuthConn [false, true, false, true]
          (twoCallersStart sReady)).trace = 2 ∧
    (runSchedule envBase cOAuthConn [false, true, false, true]
        (twoCallersStart sReady)).pcA ≠
      (runSchedule envBase cOAuthConn [false, true, false, true]
        (twoCallersStart sReady)).pcB :=
  ⟨by decide, by decide⟩

/-- **C3 (amended).** Per-key construction is not single-flight.  For any
connection, any state with no cached OAuth client and the provider set, and
any environment with a stored refresh token and configured constants: under
the interleaved schedule A,B,A,B both in-flight `getOAuthClient` callers
construct (two constructions; the callers receive clients with distinct
handles, the later write winning the cache), while under the sequential
schedule A,A,B the second caller hits the cache written by the first (one
construction, both callers receive the identical client). -/
theorem claim_C3_amended_not_single_flight (env : Env) (c : Connection)
    (s : RegistryState) (tok : String)
    (hmiss : mapGet s.oauthClientCache c.id = none)
    (hprov : s.authProvider = true)
    (ht : env.refreshToken = some tok) (htok : ¬(tok = ""))
    (hid : 10 ≤ env.googleClientId.length)
    (hsec : 10 ≤ env.googleClientSecret.length) :
    (runSchedule env c [false, true, false, true]
        (twoCallersStart s)).pcA =
      .done (.ok { handle := s.nextHandle, refreshToken := tok }) ∧
    (runSchedule env c [false, true, false, true]
        (twoCallersStart s)).pcB =
      .done (.ok { handle := s.nextHandle + 1, refreshToken := tok }) ∧
    oauthConstructionCount
      (runSchedule env c [false, true, false, true]
        (twoCallersStart s)).trace = 2 ∧
    ({ handle := s.nextHandle, refreshToken := tok } : OAuth2Client) ≠
      { handle := s.nextHandle + 1, refreshToken := tok } ∧
    (runSchedule env c [false, false, true] (twoCallersStart s)).pcA =
      .done (.ok { handle := s.nextHandle, refreshToken := tok }) ∧
    (runSchedule env c [false, false, true] (twoCallersStart s)).pcB =
      .done (.ok { handle := s.nextHandle, refreshToken := tok }) ∧
    oauthConstructionCount
      (runSchedule env c [false, false, true] (twoCallersStart s)).trace = 1
    := by
  have hid' := Nat.not_lt.mpr hid
  have hsec' := Nat.not_lt.mpr hsec
  refine ⟨?_, ?_, ?_, ?_, ?_, ?_, ?_⟩ <;>
    simp [runSchedule, stepCaller, twoCallersStart, oauthStep, hmiss, hprov,
      ht, htok, hid', hsec', oauthConstructionCount, mapGet_mapSet_self]

/-- Witness for the amended C3 at the counterexample's concrete state. -/
theorem claim_C3_witness :
    oauthConstructionCount
        (runSchedule envBase cOAuthConn [false, false, true]
          (twoCallersStart sReady)).trace = 1 ∧
    (runSchedule envBase cOAuthConn [false, false, true]
        (twoCallersStart sReady)).pcA =
      (runSchedule envBase cOAuthConn [false, false, true]
        (twoCallersStart sReady)).pcB := by
  have h := claim_C3_amended_not_single_flight envBase cOAuthConn sReady
    "refresh-token-1" rfl rfl rfl (by decide) (by decide) (by decide)
  refine ⟨h.2.2.2.2.2.2, ?_⟩
  rw [h.2.2.2.2.1, h.2.2.2.2.2.1]

/-- **C8.** In every reachable state of the registry, every entry of the
admin-app cache was constructed for a connection whose `authMode` was not
`"googleOAuth"`: `getApp` rejects OAuth connections before caching, and the
OAuth path of `getFirestoreClient` builds its client without an admin
app. -/
theorem claim_C8_app_cache_never_oauth (s : RegistryState)
    (h : Reachable s) :
    ∀ p ∈ s.appCache, p.2.mode ≠ AuthMode.googleOAuth :=
  reachable_modes s h

/-- Witness for C8 at the reachable state `sC1`, whose app cache holds the
app built for the ADC connection. -/
theorem claim_C8_witness :
    ({ handle := 0, credential := Credential.applicationDefault,
       projectId := "proj-a", name := "conn-adc",
       mode := AuthMode.adc } : App).mode ≠ AuthMode.googleOAuth :=
  claim_C8_app_cache_never_oauth sC1
    ⟨[Op.opSetAuthProvider, Op.opGetFirestoreClient envBase cAdc,
      Op.opGetOAuthClient envBase cOAuthConn], rfl⟩
    ("conn-adc",
     { handle := 0, credential := Credential.applicationDefault,
       projectId := "proj-a", name := "conn-adc", mode := AuthMode.adc })
    (by decide)

/-- **C1 (counterexample).** In the reachable state `sC1` (one cached app,
one cached Firestore client, one cached OAuth client), when the app's
`delete()` hook rejects, `disposeAll` does *not* remove all cache entries
and *does* propagate the shutdown error: it rejects with that error, the
app entry is still cached, and the OAuth-client cache was never cleared —
refuting the claim that all entries are removed and the error is not
propagated. -/
theorem claim_C1_counterexample :
    Reachable sC1 ∧
    (disposeAll envAppDeleteFails sC1).1 =
      .error (.appDeleteError "conn-adc") ∧
    (disposeAll envAppDeleteFails sC1).2.1.appCache ≠ [] ∧
    (disposeAll envAppDeleteFails sC1).2.1.oauthClientCache ≠ [] :=
  ⟨⟨[Op.opSetAuthProvider, Op.opGetFirestoreClient envBase cAdc,
     Op.opGetOAuthClient envBase cOAuthConn], rfl⟩,
   by decide, by decide, by decide⟩

/-- **C1 (amended).** When any cached client's shutdown hook — an
`app.delete()` or a `firestore.terminate()` — rejects, `disposeAll`
rejects with a shutdown error; every app and Firestore entry whose hook
resolved is removed, every entry whose hook rejected stays cached, and the
OAuth-client cache is left untouched (its `clear()` is never reached). -/
theorem claim_C1_amended_disposeAll_on_hook_error (env : Env)
    (s : RegistryState)
    (hfail : (∃ p ∈ s.appCache, env.appDeleteFails p.2.handle = true) ∨
      (∃ p ∈ s.firestoreCache, env.terminateFails p.2.handle = true)) :
    (∃ e, (disposeAll env s).1 = .error e) ∧
    (∀ p ∈ s.appCache, env.appDeleteFails p.2.handle = true →
      p ∈ (disposeAll env s).2.1.appCache) ∧
    (∀ p ∈ s.appCache, env.appDeleteFails p.2.handle = false →
      p ∉ (disposeAll env s).2.1.appCache) ∧
    (∀ p ∈ s.firestoreCache, env.terminateFails p.2.handle = true →
      p ∈ (disposeAll env s).2.1.firestoreCache) ∧
    (∀ p ∈ s.firestoreCache, env.terminateFails p.2.handle = false →
      p ∉ (disposeAll env s).2.1.firestoreCache) ∧
    (disposeAll env s).2.1.oauthClientCache = s.oauthClientCache := by
  unfold disposeAll
  cases h1 : s.appCache.find? (fun p => env.appDeleteFails p.2.handle) with
  | some p₀ =>
    simp only [h1]
    refine ⟨?_, ?_, ?_, ?_, ?_, ?_⟩
    · first
        | trivial
        | exact ⟨_, rfl⟩
    · intro p hp hf
      exact List.mem_filter.mpr ⟨hp, hf⟩
    · intro p hp hok hcontra
      have h2 := (List.mem_filter.mp hcontra).2
      rw [hok] at h2
      cases h2
    · intro p hp hf
      exact List.mem_filter.mpr ⟨hp, hf⟩
    · intro p hp hok hcontra
      have h2 := (List.mem_filter.mp hcontra).2
      rw [hok] at h2
      cases h2
    · trivial
  | none =>
    cases h2 : s.firestoreCache.find?
        (fun p => env.terminateFails p.2.handle) with
    | some q₀ =>
      simp only [h1, h2]
      refine ⟨?_, ?_, ?_, ?_, ?_, ?_⟩
      · first
          | trivial
          | exact ⟨_, rfl⟩
      · intro p hp hf
        exact List.mem_filter.mpr ⟨hp, hf⟩
      · intro p hp hok hcontra
        have h3 := (List.mem_filter.mp hcontra).2
        rw [hok] at h3
        cases h3
      · intro p hp hf
        exact List.mem_filter.mpr ⟨hp, hf⟩
      · intro p hp hok hcontra
        have h3 := (List.mem_filter.mp hcontra).2
        rw [hok] at h3
        cases h3
      · trivial
    | none =>
      exfalso
      rcases hfail with ⟨p, hp, hf⟩ | ⟨p, hp, hf⟩
      · exact (List.find?_eq_none.mp h1 p hp) hf
      · exact (List.find?_eq_none.mp h2 p hp) hf

/-- Witness for the amended C1, exercising the `firestore.terminate` hook
failure: in `sC1`, when only the Firestore client's `terminate()` rejects,
`disposeAll` rejects, that Firestore entry stays cached, the app entry
(whose `delete()` resolved) is removed, and the OAuth cache is untouched. -/
theorem claim_C1_witness :
    (∃ e, (disposeAll envTerminateFails sC1).1 = .error e) ∧
    ("conn-adc:(default)",
     { handle := 1, projectId := "proj-a", databaseId := "(default)",
       viaApp := some 0 }) ∈
      (disposeAll envTerminateFails sC1).2.1.firestoreCache ∧
    ("conn-adc",
     { handle := 0, credential := Credential.applicationDefault,
       projectId := "proj-a", name := "conn-adc",
       mode := AuthMode.adc }) ∉
      (disposeAll envTerminateFails sC1).2.1.appCache ∧
    (disposeAll envTerminateFails sC1).2.1.oauthClientCache =
      sC1.oauthClientCache :=
  ⟨(claim_C1_amended_disposeAll_on_hook_error envTerminateFails sC1
      (Or.inr ⟨("conn-adc:(default)",
        { handle := 1, projectId := "proj-a", databaseId := "(default)",
          viaApp := some 0 }), by decide, by decide⟩)).1,
   (claim_C1_amended_disposeAll_on_hook_error envTerminateFails sC1
      (Or.inr ⟨("conn-adc:(default)",
        { handle := 1, projectId := "proj-a", databaseId := "(default)",
          viaApp := some 0 }), by decide, by decide⟩)).2.2.2.1
     ("conn-adc:(default)",
      { handle := 1, projectId := "proj-a", databaseId := "(default)",
        viaApp := some 0 }) (by decide) (by decide),
   (claim_C1_amended_disposeAll_on_hook_error envTerminateFails sC1
      (Or.inr ⟨("conn-adc:(default)",
        { handle := 1, projectId := "proj-a", databaseId := "(default)",
          viaApp := some 0 }), by decide, by decide⟩)).2.2.1
     ("conn-adc",
      { handle := 0, credential := Credential.applicationDefault,
        projectId := "proj-a", name := "conn-adc", mode := AuthMode.adc })
     (by decide) (by decide),
   (claim_C1_amended_disposeAll_on_hook_error envTerminateFails sC1
      (Or.inr ⟨("conn-adc:(default)",
        { handle := 1, projectId := "proj-a", databaseId := "(default)",
          viaApp := some 0 }), by decide, by decide⟩)).2.2.2.2.2⟩

/-- Witness for C10 at a connection with an empty `serviceAccountPath`. -/
theorem claim_C10_witness :
    mapGet (getApp envBase cSapEmpty initialState).2.1.appCache "conn-sap-empty" =
      some { handle := 0, credential := .applicationDefault,
             projectId := "proj-d", name := "conn-sap-empty",
             mode := AuthMode.serviceAccountPath } :=
  (claim_C10_empty_sap_falls_through_to_adc envBase cSapEmpty initialState rfl
    (by decide) rfl).2

end BlueFlame
